import Mathlib

/-!
Verification development for `tf_macros.py`, a compositional layer ("Units")
over the TensorFlow 1.x graph API.

The Python source is shallowly embedded: tensors become records carrying a
static shape (`-1` standing for an unknown/`None` dimension, as the source's
`shape` helper encodes it) together with a symbolic expression describing the
graph node; framework operations (`tf.tile`, `tf.stack`, ...) become smart
constructors computing the static shape the framework would infer; `assert`
statements and framework errors become `Except String`; Python dictionaries
become association lists with dictionary-faithful insertion ordering; the
mutable class attribute `Model.current` is threaded explicitly as a value
of type `Option Nat`.  Name generation via `tf.make_template` and the
graph/session/coordinator plumbing are abstracted away: they do not affect
any of the properties below.
-/

namespace TFMacros

/-- A Python `assert cond`: raises `AssertionError` when the condition fails. -/
def assertE (b : Bool) : Except String Unit :=
  if b then .ok () else .error "AssertionError"

theorem assertE_true {b : Bool} (h : b = true) : assertE b = .ok () := by
  simp [assertE, h]

theorem assertE_ok_iff {b : Bool} : assertE b = .ok () ↔ b = true := by
  cases b <;> simp [assertE]

/-! ### Python dictionaries as association lists

`dset` is `d[k] = v`: it replaces the value in place when the key exists and
appends otherwise, matching Python's insertion-order semantics.  `dpop` is
`d.pop(k)` (raising `KeyError` when absent), `dget` is `d[k]`. -/

def dset (d : List (String × α)) (k : String) (v : α) : List (String × α) :=
  match d with
  | [] => [(k, v)]
  | (k', v') :: rest => if k' = k then (k', v) :: rest else (k', v') :: dset rest k v

def dmem (d : List (String × α)) (k : String) : Bool :=
  (d.lookup k).isSome

def dget (d : List (String × α)) (k : String) : Except String α :=
  match d.lookup k with
  | some v => .ok v
  | none => .error "KeyError"

def dpop (d : List (String × α)) (k : String) : Except String (List (String × α)) :=
  match d with
  | [] => .error "KeyError"
  | (k', v') :: rest =>
    if k' = k then .ok rest
    else (dpop rest k).map (fun r => (k', v') :: r)

def dkeys (d : List (String × α)) : List String := d.map Prod.fst

theorem lookup_isSome_iff_mem_keys (d : List (String × α)) (k : String) :
    (d.lookup k).isSome = true ↔ k ∈ dkeys d := by
  induction d with
  | nil => simp [dkeys, List.lookup]
  | cons hd tl ih =>
    obtain ⟨k0, v0⟩ := hd
    by_cases h : k = k0
    · subst h
      simp [dkeys, List.lookup]
    · have hbeq : (k == k0) = false := by
        simpa [beq_eq_false_iff_ne] using h
      simp [dkeys, List.lookup, hbeq, ih, h]

theorem dset_lookup_self (d : List (String × α)) (k : String) (v : α) :
    (dset d k v).lookup k = some v := by
  induction d with
  | nil => simp [dset, List.lookup]
  | cons hd tl ih =>
    obtain ⟨k', v'⟩ := hd
    by_cases h : k' = k
    · subst h
      simp [dset, List.lookup]
    · have hbeq : (k == k') = false := by
        simpa [beq_eq_false_iff_ne] using fun hh => h hh.symm
      simp [dset, if_neg h, List.lookup, hbeq, ih]

theorem dset_lookup_other (d : List (String × α)) (k k' : String) (v : α)
    (h : k' ≠ k) : (dset d k v).lookup k' = d.lookup k' := by
  induction d with
  | nil =>
    have hbeq : (k' == k) = false := by simpa [beq_eq_false_iff_ne] using h
    simp [dset, List.lookup, hbeq]
  | cons hd tl ih =>
    obtain ⟨k0, v0⟩ := hd
    by_cases h0 : k0 = k
    · subst h0
      have hbeq : (k' == k0) = false := by simpa [beq_eq_false_iff_ne] using h
      simp [dset, List.lookup, hbeq]
    · by_cases h1 : k' = k0
      · subst h1
        simp [dset, if_neg h0, List.lookup]
      · have hbeq : (k' == k0) = false := by simpa [beq_eq_false_iff_ne] using h1
        simp [dset, if_neg h0, List.lookup, hbeq, ih]

theorem dkeys_dset (d : List (String × α)) (k : String) (v : α) :
    dkeys (dset d k v) = if dmem d k then dkeys d else dkeys d ++ [k] := by
  induction d with
  | nil => simp [dset, dkeys, dmem, List.lookup]
  | cons hd tl ih =>
    obtain ⟨k0, v0⟩ := hd
    by_cases h0 : k0 = k
    · subst h0
      simp [dset, dkeys, dmem, List.lookup]
    · have hbeq : (k == k0) = false := by
        simpa [beq_eq_false_iff_ne] using fun hh => h0 hh.symm
      have hdm : dmem ((k0, v0) :: tl) k = dmem tl k := by
        simp [dmem, List.lookup, hbeq]
      have hLHS : dkeys (dset ((k0, v0) :: tl) k v) = k0 :: dkeys (dset tl k v) := by
        simp [dset, if_neg h0, dkeys]
      rw [hLHS, ih, hdm]
      by_cases hm : dmem tl k
      · simp [hm, dkeys]
      · simp [hm, dkeys]

theorem mem_dkeys_dset (d : List (String × α)) (k k' : String) (v : α) :
    k' ∈ dkeys (dset d k v) ↔ k' ∈ dkeys d ∨ k' = k := by
  rw [dkeys_dset]
  by_cases hm : dmem d k
  · simp only [hm, if_true]
    constructor
    · exact fun h => Or.inl h
    · rintro (h | rfl)
      · exact h
      · exact (lookup_isSome_iff_mem_keys d k').mp hm
  · simp [hm]

/-! ### Tensors

A tensor is a static shape (list of `Int`, `-1` for unknown, exactly as the
source's `shape` helper returns `-1` for `None` dims) plus a symbolic graph
expression.  The expression records which framework op produced the node. -/

inductive TExpr where
  | leaf (id : Nat)
  | variable_ (key : String)
  | identity_ (e : TExpr)
  | tile (e : TExpr) (multiples : List Int)
  | maximum (a b : TExpr)
  | add (a b : TExpr)
  | minimum (a b : TExpr)
  | multiply (a b : TExpr)
  | divScalar (a : TExpr) (n : Nat)
  | stack (es : List TExpr) (axis : Int)
  | concat (es : List TExpr) (axis : Int)
  | unstackItem (e : TExpr) (axis : Int) (i : Nat)
  | reshape (e : TExpr) (s : List Int)
  | transpose (e : TExpr) (perm : List Nat)
  | conv1d (v f : TExpr)
  | conv2d (v f : TExpr)
  | squeeze (e : TExpr) (axis : Int)
  | lastIndex (e : TExpr) (axis : Int)
  | reduceMax (e : TExpr) (axes : List Int)
  | reduceMean (e : TExpr) (axes : List Int)
  | reduceMin (e : TExpr) (axes : List Int)
  | reduceProd (e : TExpr) (axes : List Int)
  | reduceSum (e : TExpr) (axes : List Int)
  | totalLoss
  deriving Repr

structure Tensor where
  shape : List Int
  e : TExpr
  deriving Repr

/-- `rank(x)`: `x.shape.ndims`. -/
def rank (x : Tensor) : Nat := x.shape.length

/-- `shape(x)`: the static shape, `-1` for unknown dimensions. -/
def shape (x : Tensor) : List Int := x.shape

/-- `product(xs)`: `prod = 1; for x in xs: prod *= x; return prod`. -/
def product (xs : List Int) : Int := xs.foldl (· * ·) 1

theorem product_eq_prod (xs : List Int) : product xs = xs.prod := by
  rw [product, List.prod_eq_foldl]

/-- `tf.tile(input=x, multiples=m)`: each dimension is repeated `m` times
(an unknown `-1` dimension tiled once stays `-1`). -/
def tfTile (x : Tensor) (multiples : List Int) : Tensor :=
  ⟨List.zipWith (· * ·) x.shape multiples, .tile x.e multiples⟩

/-! ### `make_least_common_shape` -/

/-- Per-dimension maximum over the inputs' shapes: `tuple(max(s[r] for s in
shapes) for r in range(common_rank))`. -/
def refShape (shapes : List (List Int)) (commonRank : Nat) : List Int :=
  (List.range commonRank).map
    (fun r => (shapes.map (fun s => s.getD r 0)).foldl max ((shapes.headD []).getD r 0))

/-- The tile multiples: `[ref_dims if dims == 1 and r not in ignore_ranks
else 1 for r, (dims, ref_dims) in enumerate(zip(s, ref_shape))]`. -/
def mlcsMultiples (ignoreRanks ref s : List Int) : List Int :=
  (s.zip ref).enum.map
    (fun p => if p.2.1 = 1 ∧ ¬ ((p.1 : Int) ∈ ignoreRanks) then p.2.2 else 1)

/-- The loop-body assertion: `rank(x) == common_rank and all(d1 == d2 for r,
(d1, d2) in enumerate(zip(shape(x), ref_shape)) if r not in ignore_ranks)`. -/
def mlcsCheck (ignoreRanks ref : List Int) (commonRank : Nat) (x : Tensor) : Bool :=
  decide (rank x = commonRank) &&
  ((shape x).zip ref).enum.all
    (fun p => decide ((p.1 : Int) ∈ ignoreRanks) || decide (p.2.1 = p.2.2))

/-- The body of the per-tensor loop in `make_least_common_shape`: compute the
tile multiples, tile when some multiple is not 1, and check the resulting
shape against the reference shape. -/
def mlcsOne (ignoreRanks : List Int) (ref : List Int) (commonRank : Nat) (x : Tensor) :
    Except String Tensor := do
  let multiples := mlcsMultiples ignoreRanks ref (shape x)
  let x := if multiples.all (· = 1) then x else tfTile x multiples
  assertE (mlcsCheck ignoreRanks ref commonRank x)
  return x

def mlcsLoop (ignoreRanks : List Int) (ref : List Int) (commonRank : Nat) :
    List Tensor → Except String (List Tensor)
  | [] => .ok []
  | x :: rest => do
    let y ← mlcsOne ignoreRanks ref commonRank x
    let ys ← mlcsLoop ignoreRanks ref commonRank rest
    return y :: ys

/-- `make_least_common_shape(xs, ignore_ranks)`. -/
def make_least_common_shape (xs : List Tensor) (ignoreRanks : List Int := []) :
    Except String (List Tensor) := do
  assertE (xs.length > 1)
  let shapes := xs.map shape
  let commonRank := (shapes.headD []).length
  assertE (shapes.all (fun s => s.length = commonRank))
  let ref := refShape shapes commonRank
  mlcsLoop ignoreRanks ref commonRank xs

/-! ### Facts about `make_least_common_shape` -/

theorem assertE_bind_ok {c : Bool} {k : Unit → Except String β} {b : β}
    (h : (assertE c >>= k) = .ok b) : c = true ∧ k () = .ok b := by
  cases c with
  | false => simp only [assertE, Bool.false_eq_true, if_false] at h; exact absurd h (by simp [Bind.bind, Except.bind])
  | true => exact ⟨rfl, by simpa [assertE, Bind.bind, Except.bind] using h⟩

theorem all_iff_getD {p : Int → Bool} (l : List Int) (d : Int) :
    l.all p = true ↔ ∀ r, r < l.length → p (l.getD r d) = true := by
  rw [List.all_eq_true]
  constructor
  · intro h r hr
    rw [List.getD_eq_getElem _ _ hr]
    exact h _ (List.getElem_mem hr)
  · intro h a ha
    obtain ⟨i, hi, rfl⟩ := List.mem_iff_getElem.mp ha
    have := h i hi
    rwa [List.getD_eq_getElem _ _ hi] at this

theorem mlcsMultiples_length (ign ref s : List Int) :
    (mlcsMultiples ign ref s).length = min s.length ref.length := by
  simp [mlcsMultiples]

theorem mlcsMultiples_getD (ign ref s : List Int) (r : Nat) :
    (mlcsMultiples ign ref s).getD r 1 =
      if r < min s.length ref.length then
        (if s.getD r 0 = 1 ∧ ((r : Int) ∉ ign) then ref.getD r 0 else 1)
      else 1 := by
  by_cases h : r < min s.length ref.length
  · have hs : r < s.length := lt_of_lt_of_le h (min_le_left _ _)
    have hr : r < ref.length := lt_of_lt_of_le h (min_le_right _ _)
    have hz : r < (s.zip ref).length := by simpa [List.length_zip] using h
    have he : r < (s.zip ref).enum.length := by simpa [List.enum_length] using hz
    have hlen : r < (mlcsMultiples ign ref s).length := by
      rw [mlcsMultiples_length]; exact h
    rw [List.getD_eq_getElem _ _ hlen, if_pos h]
    simp only [mlcsMultiples, List.getElem_map, List.getElem_enum, List.getElem_zip,
      List.getD_eq_getElem _ _ hs, List.getD_eq_getElem _ _ hr]
  · rw [if_neg h]
    apply List.getD_eq_default
    rw [mlcsMultiples_length]
    omega

theorem mlcsMultiples_all_one (ign ref s : List Int)
    (hmatch : ∀ r, r < ref.length → ((r : Int) ∉ ign) → s.getD r 0 = ref.getD r 0) :
    (mlcsMultiples ign ref s).all (· = 1) = true := by
  rw [all_iff_getD _ 1]
  intro r hr
  rw [mlcsMultiples_length] at hr
  have hval : (if s.getD r 0 = 1 ∧ ((r : Int) ∉ ign) then ref.getD r 0 else 1) = 1 := by
    by_cases hc : s.getD r 0 = 1 ∧ ((r : Int) ∉ ign)
    · rw [if_pos hc, ← hmatch r (lt_of_lt_of_le hr (min_le_right _ _)) hc.2, hc.1]
    · rw [if_neg hc]
  rw [mlcsMultiples_getD, if_pos hr, hval]
  simp

theorem mlcsCheck_shape {ign ref : List Int} {cr : Nat} {y : Tensor}
    (href : ref.length = cr) (h : mlcsCheck ign ref cr y = true) :
    rank y = cr ∧
      ∀ r, r < ref.length → ((r : Int) ∉ ign) → (shape y).getD r 0 = ref.getD r 0 := by
  rw [mlcsCheck, Bool.and_eq_true] at h
  obtain ⟨h1, h2⟩ := h
  have hrank : rank y = cr := by simpa using h1
  refine ⟨hrank, fun r hr hign => ?_⟩
  rw [List.all_eq_true] at h2
  have hz : r < ((shape y).zip ref).length := by
    simp only [List.length_zip]
    have : (shape y).length = cr := hrank
    omega
  have he : r < ((shape y).zip ref).enum.length := by simpa [List.enum_length] using hz
  have hmem : ((shape y).zip ref).enum[r] ∈ ((shape y).zip ref).enum := List.getElem_mem he
  have := h2 _ hmem
  rw [List.getElem_enum, List.getElem_zip] at this
  simp only [Bool.or_eq_true, decide_eq_true_eq] at this
  rcases this with hig | heq
  · exact absurd hig hign
  · have hys : r < (shape y).length := by
      have : (shape y).length = cr := hrank
      omega
    rw [List.getD_eq_getElem _ _ hys, List.getD_eq_getElem _ _ hr]
    exact heq

/-- The property the spec attributes to each output of
`make_least_common_shape` relative to its input: matches the least common
shape in every non-ignored dimension; is the input itself or a tiling of it
where only extent-1 dimensions are repeated; and is the unchanged input
whenever the input already matches. -/
def LeastCommonFit (ign ref : List Int) (x y : Tensor) : Prop :=
  (∀ r, r < ref.length → ((r : Int) ∉ ign) → (shape y).getD r 0 = ref.getD r 0) ∧
  (y = x ∨ ∃ m, y = tfTile x m ∧ ∀ r, m.getD r 1 ≠ 1 →
      (shape x).getD r 0 = 1 ∧ ((r : Int) ∉ ign) ∧ m.getD r 1 = ref.getD r 0) ∧
  ((∀ r, r < ref.length → ((r : Int) ∉ ign) → (shape x).getD r 0 = ref.getD r 0) → y = x)

theorem mlcsOne_fit {ign ref : List Int} {cr : Nat} {x y : Tensor}
    (href : ref.length = cr) (h : mlcsOne ign ref cr x = .ok y) :
    LeastCommonFit ign ref x y := by
  rw [mlcsOne] at h
  by_cases hall : (mlcsMultiples ign ref (shape x)).all (· = 1) = true
  · rw [if_pos hall] at h
    obtain ⟨hchk, hret⟩ := assertE_bind_ok h
    have hy : y = x := by simpa [Pure.pure, Except.pure] using hret.symm
    subst hy
    obtain ⟨_, hsh⟩ := mlcsCheck_shape href hchk
    exact ⟨hsh, Or.inl rfl, fun _ => rfl⟩
  · rw [if_neg hall] at h
    obtain ⟨hchk, hret⟩ := assertE_bind_ok h
    have hy : y = tfTile x (mlcsMultiples ign ref (shape x)) := by
      simpa [Pure.pure, Except.pure] using hret.symm
    subst hy
    obtain ⟨_, hsh⟩ := mlcsCheck_shape href hchk
    refine ⟨hsh, Or.inr ⟨_, rfl, fun r hne => ?_⟩, fun hmatch => ?_⟩
    · rw [mlcsMultiples_getD] at hne ⊢
      by_cases hin : r < min (shape x).length ref.length
      · rw [if_pos hin] at hne ⊢
        by_cases hc : (shape x).getD r 0 = 1 ∧ ((r : Int) ∉ ign)
        · rw [if_pos hc] at hne ⊢
          exact ⟨hc.1, hc.2, rfl⟩
        · rw [if_neg hc] at hne
          exact absurd rfl hne
      · rw [if_neg hin] at hne
        exact absurd rfl hne
    · exact absurd (mlcsMultiples_all_one ign ref (shape x) hmatch) hall

theorem mlcsLoop_forall₂ {ign ref : List Int} {cr : Nat}
    (href : ref.length = cr) :
    ∀ {xs ys : List Tensor}, mlcsLoop ign ref cr xs = .ok ys →
      List.Forall₂ (LeastCommonFit ign ref) xs ys := by
  intro xs
  induction xs with
  | nil =>
    intro ys h
    simp only [mlcsLoop, Pure.pure] at h
    cases h
    exact List.Forall₂.nil
  | cons x rest ih =>
    intro ys h
    rw [mlcsLoop] at h
    cases hy : mlcsOne ign ref cr x with
    | error e => rw [hy] at h; exact absurd h (by simp [Bind.bind, Except.bind])
    | ok y =>
      rw [hy] at h
      cases hr : mlcsLoop ign ref cr rest with
      | error e =>
        rw [hr] at h
        exact absurd h (by simp [Bind.bind, Except.bind])
      | ok ys' =>
        rw [hr] at h
        have : ys = y :: ys' := by
          simpa [Bind.bind, Except.bind, Pure.pure, Except.pure] using h.symm
        subst this
        exact List.Forall₂.cons (mlcsOne_fit href hy) (ih hr)

/-- C5: `make_least_common_shape`, applied to a list of more than one tensor
all of the same rank, returns one tensor per input whose shape equals the
per-dimension maximum of the inputs' shapes in every dimension not listed in
`ignore_ranks`, tiling only dimensions of extent 1 and leaving inputs that
already match unchanged. -/
theorem claim_C5_make_least_common_shape
    {xs ys : List Tensor} {ign : List Int}
    (h : make_least_common_shape xs ign = .ok ys) :
    xs.length > 1 ∧
    (∀ x ∈ xs, rank x = ((xs.map shape).headD []).length) ∧
    ys.length = xs.length ∧
    List.Forall₂
      (LeastCommonFit ign (refShape (xs.map shape) ((xs.map shape).headD []).length))
      xs ys := by
  rw [make_least_common_shape] at h
  obtain ⟨hlen, h⟩ := assertE_bind_ok h
  obtain ⟨hranks, h⟩ := assertE_bind_ok h
  have href : (refShape (xs.map shape) ((xs.map shape).headD []).length).length
      = ((xs.map shape).headD []).length := by
    simp [refShape]
  have hfa := mlcsLoop_forall₂ href h
  refine ⟨by simpa using hlen, ?_, (hfa.length_eq).symm, hfa⟩
  intro x hx
  rw [List.all_eq_true] at hranks
  have := hranks (shape x) (List.mem_map_of_mem shape hx)
  simpa [rank] using this

/-- Witness for C5: two rank-2 tensors of shapes `[1, 3]` and `[2, 1]`; the
least common shape is `[2, 3]` and both inputs get tiled to it. -/
theorem claim_C5_witness :
    make_least_common_shape [⟨[1, 3], .leaf 0⟩, ⟨[2, 1], .leaf 1⟩] [] =
      .ok [⟨[2, 3], .tile (.leaf 0) [2, 1]⟩, ⟨[2, 3], .tile (.leaf 1) [1, 3]⟩] ∧
    List.Forall₂ (LeastCommonFit [] (refShape [[1, 3], [2, 1]] 2))
      [⟨[1, 3], .leaf 0⟩, ⟨[2, 1], .leaf 1⟩]
      [⟨[2, 3], .tile (.leaf 0) [2, 1]⟩, ⟨[2, 3], .tile (.leaf 1) [1, 3]⟩] := by
  constructor
  · rfl
  · have := @claim_C5_make_least_common_shape
      [⟨[1, 3], .leaf 0⟩, ⟨[2, 1], .leaf 1⟩]
      [⟨[2, 3], .tile (.leaf 0) [2, 1]⟩, ⟨[2, 3], .tile (.leaf 1) [1, 3]⟩]
      [] rfl
    simpa [shape] using this.2.2.2

/-! ### Variables and `Model.register_variable`

A registered variable is identified by its scoped key together with its
static shape (`tf.get_variable(name=..., shape=...)`); `VarsState` is the
variable-accounting part of a `Model`'s state. -/

def Activation.valid (activation : String) : Bool :=
  activation ∈ ["elu", "relu", "sigmoid", "softmax", "tanh"]

structure VarsState where
  «variables» : List (String × (String × List Int))
  num_parameters : Int
  num_bytes : Int
  deriving Repr

def VarsState.empty : VarsState := ⟨[], 0, 0⟩

/-- `Model.register_variable(key, variable, num_parameters, num_bytes)`. -/
def registerVariable (m : VarsState) (key : String) (v : String × List Int)
    (np nb : Int) : Except String VarsState :=
  match m.«variables».lookup key with
  | some v0 => do
    assertE (v = v0)
    return m
  | none =>
    return { «variables» := m.«variables» ++ [(key, v)],
             num_parameters := m.num_parameters + np,
             num_bytes := m.num_bytes + nb }

/-- `Model.precision` class attribute. -/
def Model.precision : Int := 32

/-- `Model.dtype(dtype, include_bytes=True)`: the framework dtype name and
the per-element byte width. -/
def Model.dtypeBytes (dtype : String) : Except String (String × Int) := do
  assertE (Model.precision % 8 = 0)
  assertE (dtype ∈ ["float", "int", "bool"])
  let d ←
    if dtype = "float" then
      if Model.precision = 32 then pure "float32" else Except.error "AssertionError"
    else if dtype = "int" then
      if Model.precision = 32 then pure "int32" else Except.error "AssertionError"
    else if dtype = "bool" then pure "bool"
    else Except.error "AssertionError"
  return (d, Model.precision / 8)

structure VariableU where
  name : String
  shape : Option (List Int)
  dtype : String
  dtypeBytes : Int
  init : String
  value : Option Int
  deriving Repr, DecidableEq

/-- `Variable.__init__(name, shape, dtype, init, value)` (the `Unit`
superclass bookkeeping — current-model check, template, naming — is
abstracted away). -/
def Variable.create (name : String) (shapeArg : Option (List Int) := none)
    (dtype : String := "float") (ini : String := "out")
    (value : Option Int := none) : Except String VariableU := do
  (match shapeArg with
   | some s => assertE (s.length > 0 ∧ s.all (fun n => n > 0))
   | none => pure ())
  assertE ((ini ∈ ["constant", "zeros", "ones", "in", "out", "in-out", "stddev"]) ∨
    Activation.valid ini)
  assertE ((ini ∈ ["constant", "zeros", "ones"]) ∨ dtype = "float")
  let db ← Model.dtypeBytes dtype
  return ⟨name, shapeArg, db.1, db.2, ini, value⟩

/-- `Variable.specify_shape(shape)`. -/
def VariableU.specifyShape (v : VariableU) (s : List Int) : Except String VariableU :=
  match v.shape with
  | none => .ok { v with shape := some s }
  | some s0 => do
    assertE (s0 = s)
    return v

/-- The initializer chosen by `Variable.forward` (lines 501-519). -/
inductive InitTag where
  | zeros | ones | stddev
  | varianceScalingFanOut1 | varianceScalingFanOut2
  | varianceScalingFanIn2 | varianceScalingFanAvg1
  deriving Repr, DecidableEq

def variableInitTag (ini : String) (shapeLen : Nat) (hasValue : Bool) :
    Except String InitTag := do
  if ini = "zeros" then return .zeros
  else if ini = "ones" then return .ones
  else if ini = "stddev" then do
    assertE hasValue
    return .stddev
  else if ini = "selu" then return .varianceScalingFanOut1
  else if ini = "out" then return .varianceScalingFanOut2
  else if ini = "in" ∨ ini ∈ ["elu", "relu"] then do
    assertE (shapeLen ≥ 2)
    return .varianceScalingFanIn2
  else if ini = "in-out" ∨ Activation.valid ini then do
    assertE (shapeLen ≥ 2)
    return .varianceScalingFanAvg1
  else .error "AssertionError"

/-- `Variable.forward()`: picks the initializer, creates the framework
variable, registers it on the current model with `num_parameters =
product(shape)` and `num_bytes = num_parameters * dtype_bytes`, and returns
`tf.identity(variable)`.  The registration amounts `(num_parameters,
num_bytes)` are returned alongside as an observation. -/
def Variable.forward (v : VariableU) (scope : String) (m : VarsState) :
    Except String (Tensor × (Int × Int) × VarsState) := do
  assertE v.shape.isSome
  let s := v.shape.getD []
  let _ ← variableInitTag v.init s.length v.value.isSome
  let variableKey := scope ++ "/" ++ v.name
  let num_parameters := product s
  let num_bytes := num_parameters * v.dtypeBytes
  let m ← registerVariable m variableKey (variableKey, s) num_parameters num_bytes
  return (⟨s, .identity_ (.variable_ variableKey)⟩, (num_parameters, num_bytes), m)

/-! ### `customize` -/

inductive PyVal where
  | none
  | str (s : String)
  | int (n : Int)
  deriving Repr, DecidableEq

/-- The `CustomUnit.__init__` produced by `customize(unit_, **specified)`:
checks that no caller kwarg repeats a specified one, merges the dicts,
substitutes a generated name when no name is given, and hands the merged
kwargs to the wrapped constructor.  Returns the kwargs the underlying
constructor receives and the updated class index. -/
def customizeApply (specified : List (String × PyVal)) (unitName : String)
    (index : Nat) (kwargs : List (String × PyVal)) :
    Except String (List (String × PyVal) × Nat) := do
  assertE (specified.all (fun p => ¬ dmem kwargs p.1))
  let kwargs := specified.foldl (fun d p => dset d p.1 p.2) kwargs
  if (kwargs.lookup "name").getD .none = .none then
    let kwargs := dset kwargs "name" (.str (unitName ++ toString index))
    return (kwargs, index + 1)
  else
    return (kwargs, index)

/-! ### Facts about variable registration -/

/-- The accounting invariant of `Model.register_variable`, for per-variable
parameter and byte counts `pc`/`bc`. -/
def VarInv (pc bc : (String × List Int) → Int) (m : VarsState) : Prop :=
  m.num_parameters = (m.«variables».map (fun kv => pc kv.2)).sum ∧
  m.num_bytes = (m.«variables».map (fun kv => bc kv.2)).sum ∧
  (dkeys m.«variables»).Nodup

/-- A sequence of `register_variable` calls whose parameter and byte counts
are functions of the registered variable (as they are in `Variable.forward`,
where both are computed from the variable's shape). -/
def applyRegistrations (pc bc : (String × List Int) → Int) :
    VarsState → List (String × (String × List Int)) → Except String VarsState
  | m, [] => .ok m
  | m, (key, v) :: rest => do
    let m' ← registerVariable m key v (pc v) (bc v)
    applyRegistrations pc bc m' rest

theorem registerVariable_preserves_inv {pc bc : (String × List Int) → Int}
    {m m' : VarsState} {key : String} {v : String × List Int}
    (hinv : VarInv pc bc m) (h : registerVariable m key v (pc v) (bc v) = .ok m') :
    VarInv pc bc m' := by
  rw [registerVariable] at h
  cases hl : m.«variables».lookup key with
  | some v0 =>
    rw [hl] at h
    obtain ⟨_, hret⟩ := assertE_bind_ok h
    have : m' = m := by simpa [Pure.pure, Except.pure] using hret.symm
    subst this
    exact hinv
  | none =>
    rw [hl] at h
    simp only [Pure.pure, Except.pure, Except.ok.injEq] at h
    subst h
    obtain ⟨h1, h2, h3⟩ := hinv
    have hkey : key ∉ dkeys m.«variables» := by
      intro hmem
      have := (lookup_isSome_iff_mem_keys m.«variables» key).mpr hmem
      rw [hl] at this
      simp at this
    refine ⟨?_, ?_, ?_⟩
    · simp [h1]
    · simp [h2]
    · have : dkeys (m.«variables» ++ [(key, v)]) = dkeys m.«variables» ++ [key] := by
        simp [dkeys]
      rw [this, List.nodup_append]
      exact ⟨h3, List.nodup_singleton key,
        fun a ha hae => hkey ((List.mem_singleton.mp hae) ▸ ha)⟩

theorem applyRegistrations_inv {pc bc : (String × List Int) → Int} :
    ∀ {regs : List (String × (String × List Int))} {m m' : VarsState},
      VarInv pc bc m → applyRegistrations pc bc m regs = .ok m' → VarInv pc bc m' := by
  intro regs
  induction regs with
  | nil =>
    intro m m' hinv h
    rw [applyRegistrations] at h
    cases h
    exact hinv
  | cons r rest ih =>
    intro m m' hinv h
    obtain ⟨key, v⟩ := r
    rw [applyRegistrations] at h
    cases hr : registerVariable m key v (pc v) (bc v) with
    | error e => rw [hr] at h; exact absurd h (by simp [Bind.bind, Except.bind])
    | ok m1 =>
      rw [hr] at h
      simp only [Bind.bind, Except.bind] at h
      exact ih (registerVariable_preserves_inv hinv hr) h

/-- C9: registering a key already present requires the same variable and is
a no-op; consequently, after any sequence of registrations whose counts are
computed from the variable (as `Variable.forward` computes them from the
shape), `num_parameters` and `num_bytes` are the sums of the registered
variables' counts over the distinct keys. -/
theorem claim_C9_register_variable (pc bc : (String × List Int) → Int) :
    (∀ (m : VarsState) (key : String) (v v' : String × List Int) (np nb : Int),
      m.«variables».lookup key = some v →
        registerVariable m key v np nb = .ok m ∧
        (v' ≠ v → registerVariable m key v' np nb = .error "AssertionError")) ∧
    (∀ (regs : List (String × (String × List Int))) (m : VarsState),
      applyRegistrations pc bc VarsState.empty regs = .ok m →
        m.num_parameters = (m.«variables».map (fun kv => pc kv.2)).sum ∧
        m.num_bytes = (m.«variables».map (fun kv => bc kv.2)).sum ∧
        (dkeys m.«variables»).Nodup) := by
  constructor
  · intro m key v v' np nb hl
    constructor
    · simp [registerVariable, hl, assertE, Bind.bind, Except.bind, Pure.pure, Except.pure]
    · intro hne
      simp [registerVariable, hl, assertE, hne, Bind.bind, Except.bind]
  · intro regs m h
    have hempty : VarInv pc bc VarsState.empty := by
      refine ⟨rfl, rfl, ?_⟩
      simp [VarsState.empty, dkeys]
    exact applyRegistrations_inv hempty h

/-- Witness for C9: re-registering `"a"` with the same variable is a no-op,
and after registering `"a"` twice and `"b"` once the parameter count is
`6 + 4 = 10` and the byte count `24 + 16 = 40`. -/
theorem claim_C9_witness :
    registerVariable ⟨[("a", ("a", [2, 3]))], 6, 24⟩ "a" ("a", [2, 3]) 6 24 =
      .ok ⟨[("a", ("a", [2, 3]))], 6, 24⟩ ∧
    applyRegistrations (fun kv => product kv.2) (fun kv => 4 * product kv.2)
      VarsState.empty [("a", ("a", [2, 3])), ("a", ("a", [2, 3])), ("b", ("b", [4]))] =
      .ok ⟨[("a", ("a", [2, 3])), ("b", ("b", [4]))], 10, 40⟩ ∧
    (10 : Int) = ([("a", ("a", [2, 3])), ("b", ("b", [4]))].map
      (fun kv => product kv.2.2)).sum := by
  refine ⟨?_, by rfl, by rfl⟩
  exact ((claim_C9_register_variable (fun kv => product kv.2)
    (fun kv => 4 * product kv.2)).1 ⟨[("a", ("a", [2, 3]))], 6, 24⟩ "a"
    ("a", [2, 3]) ("a", [2, 3]) 6 24 rfl).1

/-- C10: `product` returns 1 on the empty sequence, is the left fold of
multiplication, and agrees with the mathematical product; the parameter
count `Variable.forward` registers is `product(shape)` and the byte count
is `product(shape) * dtype_bytes`. -/
theorem claim_C10_product :
    product ([] : List Int) = 1 ∧
    (∀ xs : List Int, product xs = xs.foldl (· * ·) 1) ∧
    (∀ xs : List Int, product xs = xs.prod) ∧
    (∀ (v : VariableU) (scope : String) (m : VarsState) (s : List Int)
       (t : Tensor) (reg : Int × Int) (m' : VarsState),
      v.shape = some s → Variable.forward v scope m = .ok (t, reg, m') →
      reg.1 = product s ∧ reg.1 = s.prod ∧ reg.2 = product s * v.dtypeBytes) := by
  refine ⟨rfl, fun xs => rfl, product_eq_prod, ?_⟩
  intro v scope m s t reg m' hs h
  unfold Variable.forward at h
  rw [hs] at h
  simp only [Option.isSome_some, Option.getD_some, assertE, if_true] at h
  simp only [Bind.bind, Except.bind] at h
  cases hi : variableInitTag v.init s.length v.value.isSome with
  | error e => rw [hi] at h; exact absurd h (by simp [Bind.bind, Except.bind])
  | ok tag =>
    rw [hi] at h
    cases hr : registerVariable m (scope ++ "/" ++ v.name) (scope ++ "/" ++ v.name, s)
        (product s) (product s * v.dtypeBytes) with
    | error e =>
      rw [hr] at h
      exact absurd h (by simp [Bind.bind, Except.bind])
    | ok m1 =>
      rw [hr] at h
      simp only [Pure.pure, Except.pure, Except.ok.injEq, Prod.mk.injEq] at h
      obtain ⟨ht, hreg, hm⟩ := h
      rw [← hreg]
      exact ⟨rfl, product_eq_prod s, rfl⟩

/-- Witness for C10: a variable of shape `[2, 3, 4]` registers `24`
parameters and `96` bytes. -/
theorem claim_C10_witness :
    (Variable.create "w" (some [2, 3, 4]) "float" "zeros" none).isOk = true ∧
    Variable.forward ⟨"w", some [2, 3, 4], "float32", 4, "zeros", none⟩ "Model" VarsState.empty =
      .ok (⟨[2, 3, 4], .identity_ (.variable_ "Model/w")⟩, (24, 96),
        ⟨[("Model/w", ("Model/w", [2, 3, 4]))], 24, 96⟩) ∧
    (24 : Int) = product [2, 3, 4] := by
  refine ⟨by rfl, by rfl, ?_⟩
  exact ((claim_C10_product.2.2.2 ⟨"w", some [2, 3, 4], "float32", 4, "zeros", none⟩
    "Model" VarsState.empty [2, 3, 4]
    ⟨[2, 3, 4], .identity_ (.variable_ "Model/w")⟩ (24, 96)
    ⟨[("Model/w", ("Model/w", [2, 3, 4]))], 24, 96⟩ rfl (by rfl)).1).symm

/-! ### Facts about `customize` -/

theorem foldl_dset_lookup (sp d0 : List (String × PyVal)) (k : String)
    (hnd : (dkeys sp).Nodup) :
    (sp.foldl (fun d p => dset d p.1 p.2) d0).lookup k =
      (sp.lookup k).orElse (fun _ => d0.lookup k) := by
  induction sp generalizing d0 with
  | nil => simp [List.lookup]
  | cons p rest ih =>
    obtain ⟨k0, v0⟩ := p
    have hnd0 : k0 ∉ dkeys rest ∧ (dkeys rest).Nodup := by
      have := hnd
      rw [dkeys, List.map_cons, List.nodup_cons] at this
      exact this
    rw [List.foldl_cons, ih _ hnd0.2]
    by_cases hk : k = k0
    · subst hk
      have hrest : rest.lookup k = none := by
        cases hl : rest.lookup k with
        | none => rfl
        | some v =>
          exact absurd ((lookup_isSome_iff_mem_keys rest k).mp (by simp [hl])) hnd0.1
      simp [List.lookup, hrest, dset_lookup_self, Option.orElse]
    · have hbeq : (k == k0) = false := by simpa [beq_eq_false_iff_ne] using hk
      simp [List.lookup, hbeq, dset_lookup_other _ _ _ _ hk]

/-- C7: constructing an instance of a `customize(unit_, **specified)` class
fails exactly when a caller kwarg repeats a specified name; otherwise the
underlying constructor receives the union of the caller's kwargs and the
specified ones (specified winning vacuously, as overlap is excluded), with a
generated name substituted when no name is given. -/
theorem claim_C7_customize
    (specified kwargs : List (String × PyVal)) (unitName : String) (index : Nat)
    (hnd : (dkeys specified).Nodup) :
    (customizeApply specified unitName index kwargs = .error "AssertionError" ↔
      ∃ p ∈ specified, dmem kwargs p.1 = true) ∧
    (∀ res, customizeApply specified unitName index kwargs = .ok res →
      (∀ k, k ≠ "name" →
        res.1.lookup k = (specified.lookup k).orElse (fun _ => kwargs.lookup k)) ∧
      (((specified.lookup "name").orElse (fun _ => kwargs.lookup "name")).getD .none
          = .none →
        res.1.lookup "name" = some (.str (unitName ++ toString index)) ∧
        res.2 = index + 1) ∧
      (((specified.lookup "name").orElse (fun _ => kwargs.lookup "name")).getD .none
          ≠ .none →
        res.1.lookup "name" = (specified.lookup "name").orElse
          (fun _ => kwargs.lookup "name") ∧
        res.2 = index)) := by
  have hmerged := fun k => foldl_dset_lookup specified kwargs k hnd
  by_cases hall : specified.all (fun p => ¬ dmem kwargs p.1) = true
  · constructor
    · rw [customizeApply]
      rw [List.all_eq_true] at hall
      constructor
      · intro herr
        rw [assertE_true (by rw [List.all_eq_true]; exact hall)] at herr
        by_cases hname :
            ((specified.foldl (fun d p => dset d p.1 p.2) kwargs).lookup "name").getD
              PyVal.none = PyVal.none
        · simp [Bind.bind, Except.bind, Pure.pure, Except.pure, hname] at herr
        · simp [Bind.bind, Except.bind, Pure.pure, Except.pure, hname] at herr
      · intro ⟨p, hp, hdm⟩
        have := hall p hp
        simp [hdm] at this
    · intro res hok
      rw [customizeApply, assertE_true hall] at hok
      simp only [Bind.bind, Except.bind, Pure.pure, Except.pure] at hok
      by_cases hname :
          ((specified.foldl (fun d p => dset d p.1 p.2) kwargs).lookup "name").getD
            PyVal.none = PyVal.none
      · rw [if_pos hname] at hok
        cases hok
        rw [hmerged "name"] at hname
        refine ⟨?_, fun _ => ⟨dset_lookup_self _ _ _, rfl⟩, fun hne => absurd hname hne⟩
        intro k hk
        rw [dset_lookup_other _ _ _ _ hk]
        exact hmerged k
      · rw [if_neg hname] at hok
        cases hok
        rw [hmerged "name"] at hname
        exact ⟨fun k _ => hmerged k, fun heq => absurd heq hname,
          fun _ => ⟨hmerged "name", rfl⟩⟩
  · have hex : ∃ p ∈ specified, dmem kwargs p.1 = true := by
      by_contra hcon
      push_neg at hcon
      apply hall
      rw [List.all_eq_true]
      intro p hp
      simpa using hcon p hp
    have hfalse : (specified.all (fun p => ¬ dmem kwargs p.1)) = false := by
      cases hb : specified.all (fun p => ¬ dmem kwargs p.1) with
      | true => exact absurd hb hall
      | false => rfl
    have herr : customizeApply specified unitName index kwargs =
        .error "AssertionError" := by
      rw [customizeApply, hfalse]
      simp [assertE, Bind.bind, Except.bind]
    refine ⟨⟨fun _ => hex, fun _ => herr⟩, fun res hok => ?_⟩
    rw [herr] at hok
    exact absurd hok (by simp)

/-- Witness for C7: `customize` with `specified = [("size", 3)]`; a caller
repeating `size` fails, a caller passing only `bias` gets the union plus a
generated name `Linear7`. -/
theorem claim_C7_witness :
    customizeApply [("size", .int 3)] "Linear" 7 [("size", .int 5)] =
      .error "AssertionError" ∧
    customizeApply [("size", .int 3)] "Linear" 7 [("bias", .int 0)] =
      .ok ([("bias", .int 0), ("size", .int 3), ("name", .str "Linear7")], 8) := by
  have h := claim_C7_customize [("size", .int 3)] [("size", .int 5)] "Linear" 7
    (by simp [dkeys])
  constructor
  · exact h.1.mpr ⟨("size", .int 3), by simp, by simp [dmem, List.lookup]⟩
  · rfl

/-! ### The `Model` context manager

`Model.current` (the mutable class attribute) is threaded explicitly as an
`Option Nat`.  `MState` holds the per-model state the claims touch; the
graph scope, saver, summary writer, coordinator and queue threads are
abstracted away. -/

inductive OptOp where
  | applyGradients
  | noOp
  deriving Repr, DecidableEq

/-- Outcome of the framework calls `optimizer.compute_gradients` /
`apply_gradients` inside the `try` block: success, or a `ValueError`
carrying a message. -/
inductive GradOutcome where
  | success
  | valueError (msg : String)
  deriving Repr, DecidableEq

/-- The optimizer-construction `try`/`except` block of `Model.__exit__`
(lines 175-185), duplicated verbatim in `Model.finalize` (lines 200-210):
a `ValueError` whose message is exactly 'No variables to optimize.' is
caught and the optimization replaced by a no-op (when not already set);
every other `ValueError` propagates. -/
def buildOptimization (optimization : Option OptOp) (grad : GradOutcome) :
    Except String (Option OptOp) :=
  match grad with
  | .success => .ok (some .applyGradients)
  | .valueError msg =>
    if msg = "No variables to optimize." then
      if optimization = none then .ok (some .noOp) else .ok optimization
    else .error msg

structure MState where
  tensors : List (String × Tensor)
  placeholders : List (String × String)
  training : String
  dropoutPh : String
  defined : Bool
  optimization : Option OptOp
  session : Bool
  summary_directory : Option String
  model_directory : Option String
  deriving Repr

/-- `Model.register_tensor(key, tensor)` (acting on the tensors dict). -/
def registerTensor (tensors : List (String × Tensor)) (key : String) (t : Tensor) :
    Except String (List (String × Tensor)) := do
  assertE (key ≠ "loss" ∧ key ≠ "dropout")
  assertE (¬ dmem tensors key)
  return tensors ++ [(key, t)]

/-- `Model.register_placeholder(key, placeholder)`. -/
def registerPlaceholder (phs : List (String × String)) (key ph : String) :
    Except String (List (String × String)) := do
  assertE (¬ dmem phs key)
  return phs ++ [(key, ph)]

/-- `Model.__enter__`: requires that no model is current, makes this model
current, and creates the `training` and `dropout` inputs (whose placeholders
are registered by `Input.forward` and then popped into dedicated fields). -/
def Model.enter (cur : Option Nat) (selfId : Nat) (m : MState) :
    Except String (Option Nat × MState) := do
  assertE cur.isNone
  let cur := some selfId
  let phs ← registerPlaceholder m.placeholders "training" "training"
  let training ← dget phs "training"
  let phs ← dpop phs "training"
  let phs ← registerPlaceholder phs "dropout" "dropout"
  let dropoutPh ← dget phs "dropout"
  let phs ← dpop phs "dropout"
  return (cur,
    { m with placeholders := phs, training := training, dropoutPh := dropoutPh })

/-- `Model.__exit__(type, value, tb)`.  `excType` is the exception raised by
the `with` block body (if any); `grad` is the outcome of the framework's
gradient computation inside the optimizer-construction block.  Returns the
new `Model.current`, the new model state, and the exception `__exit__`
itself lets escape (the re-raised block exception, a propagated
`ValueError`, or an assertion failure), if any. -/
def Model.exit (cur : Option Nat) (m : MState) (excType : Option String)
    (grad : GradOutcome) : Option Nat × MState × Option String :=
  match excType with
  | some e =>
    (none, { m with session := false }, some e)
  | none =>
    if m.defined then
      let m := { m with session := false }
      if cur.isNone then (cur, m, some "AssertionError")
      else (none, m, none)
    else
      let m := { m with tensors := dset m.tensors "loss" ⟨[], .totalLoss⟩ }
      match buildOptimization m.optimization grad with
      | .error msg => (cur, m, some msg)
      | .ok opt =>
        let m := { m with optimization := opt }
        if cur.isNone then (cur, m, some "AssertionError")
        else (none, m, none)

/-- `Model.finalize(restore=False)`. -/
def Model.finalize (m : MState) (grad : GradOutcome) (restore : Bool) :
    Except String MState := do
  assertE (¬ m.defined)
  let m := { m with tensors := dset m.tensors "loss" ⟨[], .totalLoss⟩ }
  let opt ← buildOptimization m.optimization grad
  let m := { m with optimization := opt, defined := true, session := true }
  if restore then do
    assertE (match m.model_directory with | some d => d ≠ "" | none => False)
    return m
  else
    return m

/-- A plain just-entered model state used by concrete runs. -/
def exampleModelState : MState :=
  ⟨[], [], "training", "dropout", false, none, true, none, none⟩

theorem bind_ok {A B : Type} {ea : Except String A} {f : A → Except String B} {b : B}
    (h : (ea >>= f) = .ok b) : ∃ a, ea = .ok a ∧ f a = .ok b := by
  cases ea with
  | error e => exact absurd h (by simp [Bind.bind, Except.bind])
  | ok a => exact ⟨a, rfl, by simpa [Bind.bind, Except.bind] using h⟩

/-- C3 (amended): `Model.__enter__` requires that no model is current and
makes the entered model current; `Model.__exit__` resets `Model.current` to
`None` on exceptional exit, and on normal exit whenever the optimizer
construction does not propagate a `ValueError`; but when gradient
computation raises a `ValueError` other than 'No variables to optimize.'
during a normal exit, `__exit__` propagates it and leaves `Model.current`
unchanged. -/
theorem claim_C3_model_current
    (cur : Option Nat) (selfId : Nat) (m : MState) (excType : Option String)
    (grad : GradOutcome) :
    (cur ≠ none → Model.enter cur selfId m = .error "AssertionError") ∧
    (∀ r, Model.enter cur selfId m = .ok r → cur = none ∧ r.1 = some selfId) ∧
    (excType.isSome → (Model.exit cur m excType grad).1 = none) ∧
    (cur ≠ none →
      (m.defined = true ∨ (buildOptimization m.optimization grad).isOk = true) →
      (Model.exit cur m none grad).1 = none) ∧
    (m.defined = false →
      ∀ msg, buildOptimization m.optimization grad = .error msg →
        (Model.exit cur m none grad).1 = cur ∧
        (Model.exit cur m none grad).2.2 = some msg) := by
  refine ⟨?_, ?_, ?_, ?_, ?_⟩
  · intro hne
    cases cur with
    | none => exact absurd rfl hne
    | some c => simp [Model.enter, assertE, Bind.bind, Except.bind]
  · intro r hok
    cases cur with
    | some c =>
      rw [Model.enter] at hok
      simp [assertE, Bind.bind, Except.bind] at hok
    | none =>
      refine ⟨rfl, ?_⟩
      rw [Model.enter] at hok
      obtain ⟨_, _, hok⟩ := bind_ok hok
      obtain ⟨phs1, _, hok⟩ := bind_ok hok
      obtain ⟨tr, _, hok⟩ := bind_ok hok
      obtain ⟨phs2, _, hok⟩ := bind_ok hok
      obtain ⟨phs3, _, hok⟩ := bind_ok hok
      obtain ⟨dro, _, hok⟩ := bind_ok hok
      obtain ⟨phs4, _, hok⟩ := bind_ok hok
      simp only [Pure.pure, Except.pure, Except.ok.injEq] at hok
      rw [← hok]
  · intro hsome
    cases excType with
    | none => simp at hsome
    | some e => simp [Model.exit]
  · intro hne hcase
    have hcn : cur.isNone = false := by
      cases cur with
      | none => exact absurd rfl hne
      | some c => rfl
    cases hd : m.defined with
    | true => simp [Model.exit, hd, hcn]
    | false =>
      rcases hcase with hcase | hcase
      · rw [hd] at hcase; cases hcase
      · cases hb : buildOptimization m.optimization grad with
        | error e => rw [hb] at hcase; simp [Except.isOk, Except.toBool] at hcase
        | ok opt => simp [Model.exit, hd, hcn, hb]
  · intro hd msg hb
    simp [Model.exit, hd, hb]

/-- Counterexample to C3 as stated: on a normal exit during which gradient
computation raises `ValueError('foo')`, `Model.__exit__` propagates the
error and `Model.current` is left set to the entered model, not reset to
`None`. -/
theorem claim_C3_counterexample :
    (Model.exit (some 0) exampleModelState none (.valueError "foo")).1 = some 0 ∧
    (Model.exit (some 0) exampleModelState none (.valueError "foo")).2.2 = some "foo" := by
  exact ⟨rfl, rfl⟩

/-- Witness for C3: entering with no current model makes model 0 current;
exceptional exit and a successful normal exit both reset `Model.current`. -/
theorem claim_C3_witness :
    (none : Option Nat) = none ∧
    (Model.exit (some 0) exampleModelState (some "boom") .success).1 = none ∧
    (Model.exit (some 0) exampleModelState none .success).1 = none := by
  refine ⟨rfl, ?_, ?_⟩
  · exact (claim_C3_model_current (some 0) 0 exampleModelState (some "boom")
      .success).2.2.1 rfl
  · exact (claim_C3_model_current (some 0) 0 exampleModelState none
      .success).2.2.2.1 (by simp) (Or.inr (by rfl))

/-- C6: the optimizer construction in `Model.__exit__` and `Model.finalize`
catches exactly the `ValueError` whose message is 'No variables to
optimize.', replacing the optimization step by a no-op, while every other
`ValueError` raised by gradient computation propagates to the caller. -/
theorem claim_C6_optimizer_valueerror
    (opt : Option OptOp) (msg : String) (m : MState) (cur : Option Nat) :
    (opt = none →
      buildOptimization opt (.valueError "No variables to optimize.") =
        .ok (some .noOp)) ∧
    (msg ≠ "No variables to optimize." →
      buildOptimization opt (.valueError msg) = .error msg) ∧
    (buildOptimization opt .success = .ok (some .applyGradients)) ∧
    (m.defined = false → msg ≠ "No variables to optimize." →
      Model.finalize m (.valueError msg) false = .error msg ∧
      (Model.exit cur m none (.valueError msg)).2.2 = some msg) ∧
    (m.defined = false → m.optimization = none → cur ≠ none →
      (Model.exit cur m none (.valueError "No variables to optimize.")).1 = none ∧
      (Model.exit cur m none
        (.valueError "No variables to optimize.")).2.1.optimization = some .noOp ∧
      (Model.exit cur m none (.valueError "No variables to optimize.")).2.2 = none) := by
  refine ⟨?_, ?_, ?_, ?_, ?_⟩
  · intro h
    simp [buildOptimization, h]
  · intro h
    simp [buildOptimization, h]
  · rfl
  · intro hd hmsg
    constructor
    · rw [Model.finalize]
      simp [hd, assertE, buildOptimization, hmsg, Bind.bind, Except.bind]
    · simp [Model.exit, hd, buildOptimization, hmsg]
  · intro hd hopt hcur
    have hcn : cur.isNone = false := by
      cases cur with
      | none => exact absurd rfl hcur
      | some c => rfl
    simp [Model.exit, hd, hopt, buildOptimization, hcn]

/-- Witness for C6: with no optimization set, the caught message installs a
no-op; the message 'foo' propagates out of `finalize` and `__exit__`. -/
theorem claim_C6_witness :
    buildOptimization none (.valueError "No variables to optimize.") =
      .ok (some .noOp) ∧
    buildOptimization none (.valueError "foo") = .error "foo" ∧
    Model.finalize exampleModelState (.valueError "foo") false = .error "foo" ∧
    (Model.exit (some 0) exampleModelState none
      (.valueError "No variables to optimize.")).2.1.optimization = some .noOp := by
  have h := claim_C6_optimizer_valueerror none "foo" exampleModelState (some 0)
  refine ⟨h.1 rfl, h.2.1 (by decide), (h.2.2.2.1 rfl (by decide)).1, ?_⟩
  exact ((claim_C6_optimizer_valueerror none "foo" exampleModelState (some 0)).2.2.2.2
    rfl rfl (by simp)).2.1

/-! ### `Model.__call__` -/

inductive QueryArg where
  | none
  | str (s : String)
  | list (l : List String)

inductive DVal where
  | int (n : Int)
  | listv (l : List Int)
  deriving Repr, DecidableEq

inductive Fetch where
  | ten (t : Tensor)
  | opt (o : Option OptOp)
  | summaries
  deriving Repr

inductive FeedVal where
  | bool (b : Bool)
  | rat (q : ℚ)
  | data (v : DVal)
  deriving Repr

inductive DataArg where
  | none
  | dict (d : List (String × DVal))
  | single (v : DVal)

/-- `Model.__call__(query=None, data=None, optimize=False, summarize=False,
dropout=None)`.  `run` abstracts `session.run`, mapping each fetch to a
fetched value given the feed dict.  The Python function returns only the
fetched dict; the feed dict and the fetches handed to `session.run` are
returned alongside as observations. -/
def Model.call (m : MState) (run : List (String × FeedVal) → Fetch → Int)
    (query : QueryArg) (data : DataArg) (optimize summarize : Bool)
    (dropout : Option ℚ) :
    Except String
      (List (String × Int) × List (String × FeedVal) × List (String × Fetch)) := do
  assertE m.session
  let fetches ← (match query with
    | .none => pure ([] : List (String × Fetch))
    | .str q => do
      let t ← dget m.tensors q
      pure [("query", Fetch.ten t)]
    | .list l =>
      l.foldlM (fun d name => do
        let t ← dget m.tensors name
        pure (dset d name (.ten t))) ([] : List (String × Fetch)))
  let feed ← (match data with
    | .none => pure ([] : List (String × FeedVal))
    | .dict d =>
      pure (d.foldl (fun fd p =>
        match m.placeholders.lookup p.1 with
        | some ph => dset fd ph (.data p.2)
        | none => fd) ([] : List (String × FeedVal)))
    | .single v =>
      match m.placeholders with
      | [(_, ph)] => pure [(ph, FeedVal.data v)]
      | _ => Except.error "AssertionError")
  let feed := dset feed m.training (.bool optimize)
  let fetches ← (if optimize then do
      assertE (¬ dmem fetches "optimization")
      pure (dset fetches "optimization" (.opt m.optimization))
    else pure fetches)
  let fetches ← (if m.summary_directory.isSome ∧ summarize then do
      assertE (¬ dmem fetches "summaries")
      pure (dset fetches "summaries" .summaries)
    else pure fetches)
  assertE (match dropout with
    | none => true
    | some q => decide (0 ≤ q ∧ q < 1))
  let feed := dset feed m.dropoutPh (.rat (dropout.getD 0))
  let fetched := fetches.map (fun p => (p.1, run feed p.2))
  let fetched ← (if optimize then dpop fetched "optimization" else pure fetched)
  let fetched ← (if m.summary_directory.isSome ∧ summarize then
      dpop fetched "summaries"
    else pure fetched)
  return (fetched, feed, fetches)

theorem nodup_dkeys_dset {d : List (String × α)} {k : String} {v : α}
    (h : (dkeys d).Nodup) : (dkeys (dset d k v)).Nodup := by
  rw [dkeys_dset]
  by_cases hm : dmem d k
  · simpa [hm]
  · simp only [hm, Bool.false_eq_true, if_false]
    rw [List.nodup_append]
    refine ⟨h, List.nodup_singleton _, fun a ha hae => ?_⟩
    rw [List.mem_singleton] at hae
    subst hae
    have : ¬ (a ∈ dkeys d) := by
      intro hmem
      have := (lookup_isSome_iff_mem_keys d a).mpr hmem
      simp [dmem, this] at hm
    exact this ha

theorem dkeys_map_values (d : List (String × α)) (f : String × α → β) :
    dkeys (d.map (fun p => (p.1, f p))) = dkeys d := by
  induction d with
  | nil => rfl
  | cons hd tl ih => simp [dkeys]

theorem dkeys_cons (k : String) (v : α) (tl : List (String × α)) :
    dkeys ((k, v) :: tl) = k :: dkeys tl := rfl

theorem dpop_keys {k : String} :
    ∀ {d d' : List (String × α)}, dpop d k = .ok d' → (dkeys d).Nodup →
      (dkeys d').Nodup ∧ ∀ k', k' ∈ dkeys d' ↔ (k' ∈ dkeys d ∧ k' ≠ k) := by
  intro d
  induction d with
  | nil => intro d' h _; rw [dpop] at h; cases h
  | cons hd tl ih =>
    intro d' h hnd
    obtain ⟨k0, v0⟩ := hd
    rw [dkeys_cons, List.nodup_cons] at hnd
    obtain ⟨hk0, hndtl⟩ := hnd
    rw [dpop] at h
    by_cases hk : k0 = k
    · rw [if_pos hk] at h
      cases h
      subst hk
      refine ⟨hndtl, fun k' => ?_⟩
      rw [dkeys_cons, List.mem_cons]
      constructor
      · intro hmem
        exact ⟨Or.inr hmem, fun heq => hk0 (heq ▸ hmem)⟩
      · rintro ⟨rfl | hmem, hne⟩
        · exact absurd rfl hne
        · exact hmem
    · rw [if_neg hk] at h
      cases hp : dpop tl k with
      | error e => rw [hp] at h; cases h
      | ok r =>
        rw [hp] at h
        have h' : ((k0, v0) :: r) = d' := by
          simpa [Except.map] using h
        subst h'
        obtain ⟨hr1, hr2⟩ := ih hp hndtl
        constructor
        · rw [dkeys_cons, List.nodup_cons]
          exact ⟨fun hmem => hk0 ((hr2 k0).mp hmem).1, hr1⟩
        · intro k'
          rw [dkeys_cons, dkeys_cons, List.mem_cons, List.mem_cons]
          constructor
          · rintro (rfl | hmem)
            · exact ⟨Or.inl rfl, fun heq => hk heq⟩
            · obtain ⟨hm1, hm2⟩ := (hr2 k').mp hmem
              exact ⟨Or.inr hm1, hm2⟩
          · rintro ⟨rfl | hmem, hne⟩
            · exact Or.inl rfl
            · exact Or.inr ((hr2 k').mpr ⟨hmem, hne⟩)

theorem queryFetches_list (tensors : List (String × Tensor)) :
    ∀ (l : List String) (acc res : List (String × Fetch)),
      (l.foldlM (fun d name => do
          let t ← dget tensors name
          pure (dset d name (Fetch.ten t))) acc) = .ok res →
      ((dkeys acc).Nodup → (dkeys res).Nodup) ∧
      (∀ k, k ∈ dkeys res ↔ k ∈ dkeys acc ∨ k ∈ l) := by
  intro l
  induction l with
  | nil =>
    intro acc res h
    rw [List.foldlM] at h
    cases h
    exact ⟨id, fun k => by simp⟩
  | cons name rest ih =>
    intro acc res h
    rw [List.foldlM] at h
    obtain ⟨acc1, h1, h⟩ := bind_ok h
    obtain ⟨t, ht, h1'⟩ := bind_ok h1
    simp only [Pure.pure, Except.pure, Except.ok.injEq] at h1'
    subst h1'
    obtain ⟨ihn, ihm⟩ := ih _ _ h
    constructor
    · intro hnd
      exact ihn (nodup_dkeys_dset hnd)
    · intro k
      rw [ihm k, mem_dkeys_dset]
      constructor
      · rintro ((hm | rfl) | hm)
        · exact Or.inl hm
        · exact Or.inr (by simp)
        · exact Or.inr (by simp [hm])
      · rintro (hm | hm)
        · exact Or.inl (Or.inl hm)
        · rw [List.mem_cons] at hm
          rcases hm with rfl | hm
          · exact Or.inl (Or.inr rfl)
          · exact Or.inr hm

/-- The keys named by the query argument of `Model.__call__` as the result
actually exposes them: none, the names of an iterable query, or the literal
key 'query' for a string query. -/
def queryKeys (query : QueryArg) (k : String) : Prop :=
  match query with
  | .none => False
  | .str _ => k = "query"
  | .list l => k ∈ l

/-- C4 (amended): with a live session and a valid dropout, a successful
`Model.__call__` feeds the training placeholder the value of `optimize`,
feeds the dropout placeholder the given value (0.0 when missing), hands the
optimization op to `session.run` exactly when `optimize`, and returns a
dictionary whose keys are exactly: nothing for a `None` query, the names of
an iterable query, and the literal key 'query' (not the queried name) for a
string query — the internal 'optimization' and 'summaries' fetches being
removed before returning. -/
theorem claim_C4_model_call
    (m : MState) (run : List (String × FeedVal) → Fetch → Int)
    (query : QueryArg) (data : DataArg) (optimize summarize : Bool)
    (dropout : Option ℚ)
    (res : List (String × Int) × List (String × FeedVal) × List (String × Fetch))
    (hph : m.training ≠ m.dropoutPh)
    (h : Model.call m run query data optimize summarize dropout = .ok res) :
    m.session = true ∧
    res.2.1.lookup m.training = some (.bool optimize) ∧
    res.2.1.lookup m.dropoutPh = some (.rat (dropout.getD 0)) ∧
    (∀ q, dropout = some q → 0 ≤ q ∧ q < 1) ∧
    (optimize = true → res.2.2.lookup "optimization" = some (.opt m.optimization)) ∧
    (dkeys res.1).Nodup ∧
    (∀ k, k ∈ dkeys res.1 ↔ queryKeys query k) := by
  unfold Model.call at h
  obtain ⟨u0, hsess, h⟩ := bind_ok h
  have hses : m.session = true := by
    cases u0
    exact assertE_ok_iff.mp hsess
  obtain ⟨fetches0, hq, h⟩ := bind_ok h
  obtain ⟨feed0, hdta, h⟩ := bind_ok h
  obtain ⟨fetches1, hopt, h⟩ := bind_ok h
  obtain ⟨fetches2, hsumm, h⟩ := bind_ok h
  obtain ⟨u1, hdrop, h⟩ := bind_ok h
  obtain ⟨fetched1, hpop1, h⟩ := bind_ok h
  obtain ⟨fetched2, hpop2, h⟩ := bind_ok h
  simp only [Pure.pure, Except.pure, Except.ok.injEq] at h
  subst h
  have hfet0 : (dkeys fetches0).Nodup ∧ ∀ k, k ∈ dkeys fetches0 ↔ queryKeys query k := by
    cases query with
    | none =>
      simp only [Pure.pure, Except.pure, Except.ok.injEq] at hq
      subst hq
      exact ⟨List.nodup_nil, fun k => by simp [dkeys, queryKeys]⟩
    | str q =>
      obtain ⟨t, ht, hq'⟩ := bind_ok hq
      simp only [Pure.pure, Except.pure, Except.ok.injEq] at hq'
      subst hq'
      exact ⟨by simp [dkeys], fun k => by simp [dkeys, queryKeys]⟩
    | list l =>
      obtain ⟨hn, hm⟩ := queryFetches_list m.tensors l [] fetches0 hq
      refine ⟨hn (by simp [dkeys]), fun k => ?_⟩
      rw [hm k]
      simp [dkeys, queryKeys]
  have hOptCase :
      (optimize = true ∧
        fetches1 = dset fetches0 "optimization" (.opt m.optimization) ∧
        ¬ (("optimization" : String) ∈ dkeys fetches0)) ∨
      (optimize = false ∧ fetches1 = fetches0) := by
    cases ho : optimize with
    | true =>
      left
      rw [ho] at hopt
      rw [if_pos rfl] at hopt
      obtain ⟨u, ha, hp⟩ := bind_ok hopt
      cases u
      have hnd := assertE_ok_iff.mp ha
      refine ⟨rfl, by simpa [Pure.pure, Except.pure] using hp.symm, ?_⟩
      intro hmem
      have hdm : dmem fetches0 "optimization" = true := by
        rw [dmem]
        exact (lookup_isSome_iff_mem_keys _ _).mpr hmem
      rw [hdm] at hnd
      simp at hnd
    | false =>
      right
      rw [ho] at hopt
      simp only [Bool.false_eq_true, if_false, Pure.pure, Except.pure,
        Except.ok.injEq] at hopt
      exact ⟨rfl, hopt.symm⟩
  have hSummCase :
      ((m.summary_directory.isSome ∧ summarize = true) ∧
        fetches2 = dset fetches1 "summaries" .summaries ∧
        ¬ (("summaries" : String) ∈ dkeys fetches1)) ∨
      (¬ (m.summary_directory.isSome ∧ summarize = true) ∧ fetches2 = fetches1) := by
    by_cases hsc : (m.summary_directory.isSome ∧ summarize = true)
    · left
      rw [if_pos hsc] at hsumm
      obtain ⟨u, ha, hp⟩ := bind_ok hsumm
      cases u
      have hnd := assertE_ok_iff.mp ha
      refine ⟨hsc, by simpa [Pure.pure, Except.pure] using hp.symm, ?_⟩
      intro hmem
      have hdm : dmem fetches1 "summaries" = true := by
        rw [dmem]
        exact (lookup_isSome_iff_mem_keys _ _).mpr hmem
      rw [hdm] at hnd
      simp at hnd
    · right
      rw [if_neg hsc] at hsumm
      simp only [Pure.pure, Except.pure, Except.ok.injEq] at hsumm
      exact ⟨hsc, hsumm.symm⟩
  have hfet1 : (dkeys fetches1).Nodup ∧
      (∀ k, k ∈ dkeys fetches1 ↔
        (queryKeys query k ∨ (optimize = true ∧ k = "optimization"))) := by
    rcases hOptCase with ⟨ho, hf, hnot⟩ | ⟨ho, hf⟩
    · subst hf
      refine ⟨nodup_dkeys_dset hfet0.1, fun k => ?_⟩
      rw [mem_dkeys_dset, hfet0.2 k]
      constructor
      · rintro (hqk | rfl)
        · exact Or.inl hqk
        · exact Or.inr ⟨ho, rfl⟩
      · rintro (hqk | ⟨_, rfl⟩)
        · exact Or.inl hqk
        · exact Or.inr rfl
    · subst hf
      refine ⟨hfet0.1, fun k => ?_⟩
      rw [hfet0.2 k]
      constructor
      · exact fun hqk => Or.inl hqk
      · rintro (hqk | ⟨hcon, _⟩)
        · exact hqk
        · rw [ho] at hcon
          cases hcon
  have hfet2 : (dkeys fetches2).Nodup ∧
      (∀ k, k ∈ dkeys fetches2 ↔
        (k ∈ dkeys fetches1 ∨
          ((m.summary_directory.isSome ∧ summarize = true) ∧ k = "summaries"))) := by
    rcases hSummCase with ⟨hsc, hf, hnot⟩ | ⟨hsc, hf⟩
    · subst hf
      refine ⟨nodup_dkeys_dset hfet1.1, fun k => ?_⟩
      rw [mem_dkeys_dset]
      constructor
      · rintro (hm | rfl)
        · exact Or.inl hm
        · exact Or.inr ⟨hsc, rfl⟩
      · rintro (hm | ⟨_, rfl⟩)
        · exact Or.inl hm
        · exact Or.inr rfl
    · subst hf
      refine ⟨hfet1.1, fun k => ?_⟩
      constructor
      · exact fun hm => Or.inl hm
      · rintro (hm | ⟨hcon, _⟩)
        · exact hm
        · exact absurd hcon hsc
  have hfd1 : (dkeys fetched1).Nodup ∧
      (∀ k, k ∈ dkeys fetched1 ↔
        (k ∈ dkeys fetches2 ∧ (optimize = true → k ≠ "optimization"))) := by
    cases ho : optimize with
    | true =>
      rw [ho, if_pos rfl] at hpop1
      obtain ⟨hn, hm⟩ := dpop_keys hpop1 (by rw [dkeys_map_values]; exact hfet2.1)
      refine ⟨hn, fun k => ?_⟩
      rw [hm k, dkeys_map_values]
      exact ⟨fun ⟨a, b⟩ => ⟨a, fun _ => b⟩, fun ⟨a, b⟩ => ⟨a, b rfl⟩⟩
    | false =>
      rw [ho] at hpop1
      simp only [Bool.false_eq_true, if_false, Pure.pure, Except.pure,
        Except.ok.injEq] at hpop1
      subst hpop1
      refine ⟨by rw [dkeys_map_values]; exact hfet2.1, fun k => ?_⟩
      rw [dkeys_map_values]
      exact ⟨fun a => ⟨a, fun hcon => by cases hcon⟩, fun ⟨a, _⟩ => a⟩
  have hfd2 : (dkeys fetched2).Nodup ∧
      (∀ k, k ∈ dkeys fetched2 ↔
        (k ∈ dkeys fetched1 ∧
          ((m.summary_directory.isSome ∧ summarize = true) → k ≠ "summaries"))) := by
    by_cases hsc : (m.summary_directory.isSome ∧ summarize = true)
    · rw [if_pos hsc] at hpop2
      obtain ⟨hn, hm⟩ := dpop_keys hpop2 hfd1.1
      refine ⟨hn, fun k => ?_⟩
      rw [hm k]
      exact ⟨fun ⟨a, b⟩ => ⟨a, fun _ => b⟩, fun ⟨a, b⟩ => ⟨a, b hsc⟩⟩
    · rw [if_neg hsc] at hpop2
      simp only [Pure.pure, Except.pure, Except.ok.injEq] at hpop2
      subst hpop2
      exact ⟨hfd1.1, fun k => ⟨fun a => ⟨a, fun hcon => absurd hcon hsc⟩,
        fun ⟨a, _⟩ => a⟩⟩
  refine ⟨hses, ?_, ?_, ?_, ?_, hfd2.1, ?_⟩
  · show (dset (dset feed0 m.training (.bool optimize)) m.dropoutPh
      (.rat (dropout.getD 0))).lookup m.training = some (.bool optimize)
    rw [dset_lookup_other _ _ _ _ hph, dset_lookup_self]
  · exact dset_lookup_self _ _ _
  · intro q hq
    cases u1
    have hd := assertE_ok_iff.mp hdrop
    rw [hq] at hd
    simpa using hd
  · intro ho
    show fetches2.lookup "optimization" = some (.opt m.optimization)
    have h1 : fetches1.lookup "optimization" = some (.opt m.optimization) := by
      rcases hOptCase with ⟨_, hf, _⟩ | ⟨ho', _⟩
      · rw [hf]
        exact dset_lookup_self _ _ _
      · rw [ho] at ho'
        cases ho'
    rcases hSummCase with ⟨_, hf, _⟩ | ⟨_, hf⟩
    · rw [hf, dset_lookup_other _ _ _ _ (by decide)]
      exact h1
    · rw [hf]
      exact h1
  · intro k
    rw [hfd2.2 k, hfd1.2 k, hfet2.2 k, hfet1.2 k]
    constructor
    · rintro ⟨⟨(hqk | ⟨ho, rfl⟩) | ⟨hsc, rfl⟩, hno⟩, hns⟩
      · exact hqk
      · exact absurd rfl (hno ho)
      · exact absurd rfl (hns hsc)
    · intro hqk
      have hno : optimize = true → k ≠ "optimization" := by
        intro ho heq
        subst heq
        rcases hOptCase with ⟨_, _, hnot⟩ | ⟨ho', _⟩
        · exact hnot ((hfet0.2 _).mpr hqk)
        · rw [ho] at ho'
          cases ho'
      have hns : (m.summary_directory.isSome ∧ summarize = true) → k ≠ "summaries" := by
        intro hsc heq
        subst heq
        rcases hSummCase with ⟨_, _, hnot⟩ | ⟨hsc', _⟩
        · exact hnot ((hfet1.2 _).mpr (Or.inl hqk))
        · exact absurd hsc hsc'
      exact ⟨⟨Or.inl (Or.inl hqk), hno⟩, hns⟩

/-- A model state with a registered tensor `loss` and a live session, used
for concrete `Model.__call__` runs. -/
def exampleCallState : MState :=
  ⟨[("loss", ⟨[], .totalLoss⟩)], [], "training", "dropout", true, some .noOp,
    true, none, none⟩

/-- Counterexample to C4 as stated: querying the single string 'loss'
returns the fetched value under the literal key 'query', not under the
queried name 'loss'. -/
theorem claim_C4_counterexample :
    Model.call exampleCallState (fun _ _ => 0) (.str "loss") .none false false none =
      .ok ([("query", 0)],
           [("training", .bool false), ("dropout", .rat 0)],
           [("query", .ten ⟨[], .totalLoss⟩)]) ∧
    dkeys [("query", (0 : Int))] = ["query"] ∧
    ¬ (("loss" : String) ∈ dkeys [("query", (0 : Int))]) := by
  refine ⟨rfl, rfl, by decide⟩

/-- Witness for C4: an optimizing call with query `['loss']` feeds
training `True`, fetches the optimization op, pops it, and returns exactly
the key `loss`. -/
theorem claim_C4_witness :
    Model.call exampleCallState (fun _ _ => 0) (.list ["loss"]) .none true false none =
      .ok ([("loss", 0)],
           [("training", .bool true), ("dropout", .rat 0)],
           [("loss", .ten ⟨[], .totalLoss⟩), ("optimization", .opt (some .noOp))]) ∧
    (("loss" : String) ∈ dkeys [("loss", (0 : Int))] ↔ queryKeys (.list ["loss"]) "loss") := by
  constructor
  · rfl
  · exact (claim_C4_model_call exampleCallState (fun _ _ => 0) (.list ["loss"])
      .none true false none
      ([("loss", 0)],
       [("training", .bool true), ("dropout", .rat 0)],
       [("loss", .ten ⟨[], .totalLoss⟩), ("optimization", .opt (some .noOp))])
      (by decide) rfl).2.2.2.2.2.2 "loss"

/-! ### `Unit`: call caching and composition

A `Unit` is modelled by its arities, an abstract forward function (the
subclass `forward` body after the `super().forward` arity check, with
`initialize`-on-first-call folded in), the `outputs` cache and a count of
forward invocations (an observation: the Python object has no such field,
it counts how often `fn_forward` runs).  `tf.make_template` naming is
abstracted away. -/

inductive FwdOut where
  | tensor (t : Tensor)
  | seq (ts : List Tensor)

inductive CallValue where
  | single (t : Tensor)
  | multi (ts : List Tensor)
  deriving Repr

structure UnitU where
  num_in : Int
  num_out : Int
  fwd : List Tensor → Except String FwdOut
  outputs : List (String × CallValue)
  forwardCalls : Nat

/-- `Unit.forward`'s arity assertion (`len(xs) == self.num_in or
self.num_in == -1`) followed by the subclass body. -/
def UnitU.fnForward (u : UnitU) (xs : List Tensor) : Except String FwdOut := do
  assertE ((xs.length : Int) = u.num_in ∨ u.num_in = -1)
  u.fwd xs

/-- `for n, tensor in enumerate(output):
Model.current.register_tensor(key=(output_key + str(n)), tensor=tensor)`. -/
def registerTensorsEnum (tensors : List (String × Tensor)) (key : String) :
    List Tensor → Nat → Except String (List (String × Tensor))
  | [], _ => .ok tensors
  | t :: rest, n => do
    let tensors' ← registerTensor tensors (key ++ toString n) t
    registerTensorsEnum tensors' key rest (n + 1)

/-- The body of `Unit.__call__` past the cache check: run `fn_forward`,
normalize the output (a bare tensor or a length-1 sequence becomes a single
tensor, anything else a tuple), and cache/register under the key. -/
def UnitU.callBody (u : UnitU) (tensors : List (String × Tensor))
    (inputs : List Tensor) (output_key : Option String) :
    Except String (CallValue × UnitU × List (String × Tensor)) := do
  let u := { u with forwardCalls := u.forwardCalls + 1 }
  let out ← u.fnForward inputs
  match out with
  | .tensor t =>
    match output_key with
    | some k => do
      let u := { u with outputs := dset u.outputs k (.single t) }
      let tensors ← registerTensor tensors k t
      return (.single t, u, tensors)
    | none => return (.single t, u, tensors)
  | .seq ts =>
    match ts with
    | [t] =>
      match output_key with
      | some k => do
        let u := { u with outputs := dset u.outputs k (.single t) }
        let tensors ← registerTensor tensors k t
        return (.single t, u, tensors)
      | none => return (.single t, u, tensors)
    | ts =>
      match output_key with
      | some k => do
        let u := { u with outputs := dset u.outputs k (.multi ts) }
        let tensors ← registerTensorsEnum tensors k ts 0
        return (.multi ts, u, tensors)
      | none => return (.multi ts, u, tensors)

/-- `Unit.__call__(inputs=(), output_key=None)`: a key already present in
the cache returns the cached output before `fn_forward` is consulted. -/
def UnitU.call (u : UnitU) (tensors : List (String × Tensor))
    (inputs : List Tensor) (output_key : Option String) :
    Except String (CallValue × UnitU × List (String × Tensor)) :=
  match output_key with
  | some k =>
    match u.outputs.lookup k with
    | some v => .ok (v, u, tensors)
    | none => u.callBody tensors inputs (some k)
  | none => u.callBody tensors inputs none

structure ComposedU where
  num_in : Int
  num_out : Int
  first : UnitU
  second : UnitU

/-- `Composed.__init__(first, second)` for a `Unit` first (the list-valued
`first` variant is reached only through `__rrshift__`, outside this claim);
`Unit.__init__(template=False)` requires a current model. -/
def Composed.init (cur : Option Nat) (first second : UnitU) :
    Except String ComposedU := do
  assertE (first.num_out = second.num_in ∨ second.num_in = -1)
  assertE cur.isSome
  return ⟨first.num_in, second.num_out, first, second⟩

inductive RshiftRes where
  | composed (c : ComposedU)
  | applied (v : CallValue)

/-- `inputs = (inputs,) if isinstance(inputs, tf.Tensor) else inputs`. -/
def wrapInputs (v : CallValue) : List Tensor :=
  match v with
  | .single t => [t]
  | .multi ts => ts

/-- `Unit.__rshift__(other)`: with `num_in == 0`, check the arities,
evaluate `self`, wrap a bare tensor into a tuple, and apply `other`;
otherwise build `Composed(first=self, second=other)`. -/
def UnitU.rshift (a b : UnitU) (cur : Option Nat)
    (tensors : List (String × Tensor)) :
    Except String (RshiftRes × UnitU × UnitU × List (String × Tensor)) := do
  if a.num_in = 0 then do
    assertE (a.num_out = b.num_in ∨ b.num_in = -1)
    let r ← a.call tensors [] none
    let r2 ← b.call r.2.2 (wrapInputs r.1) none
    return (.applied r2.1, r.2.1, r2.2.1, r2.2.2)
  else do
    let c ← Composed.init cur a b
    return (.composed c, a, b, tensors)

/-- C8: keyed unit invocation is idempotent: a successful keyed call caches
its normalized output under the key, and every later call with that key
returns the cached output with the unit state (including the
forward-invocation count), the model tensor registry and everything else
unchanged, regardless of the new inputs. -/
theorem claim_C8_keyed_call_idempotent
    (u : UnitU) (tensors : List (String × Tensor)) (inputs : List Tensor)
    (k : String) :
    (∀ v u' tensors', u.call tensors inputs (some k) = .ok (v, u', tensors') →
      u'.outputs.lookup k = some v) ∧
    (∀ v, u.outputs.lookup k = some v →
      ∀ (inputs' : List Tensor) (tensors' : List (String × Tensor)),
        u.call tensors' inputs' (some k) = .ok (v, u, tensors')) := by
  constructor
  · intro v u' tensors' h
    rw [UnitU.call] at h
    cases hl : u.outputs.lookup k with
    | some v0 =>
      rw [hl] at h
      simp only [Except.ok.injEq, Prod.mk.injEq] at h
      obtain ⟨h1, h2, h3⟩ := h
      rw [← h2, hl, h1]
    | none =>
      rw [hl] at h
      rw [UnitU.callBody] at h
      obtain ⟨out, hout, h⟩ := bind_ok h
      cases out with
      | tensor t =>
        obtain ⟨tens2, hreg, h⟩ := bind_ok h
        simp only [Pure.pure, Except.pure, Except.ok.injEq, Prod.mk.injEq] at h
        obtain ⟨h1, h2, h3⟩ := h
        rw [← h2, ← h1]
        exact dset_lookup_self _ _ _
      | seq ts =>
        match ts with
        | [] =>
          obtain ⟨tens2, hreg, h⟩ := bind_ok h
          simp only [Pure.pure, Except.pure, Except.ok.injEq, Prod.mk.injEq] at h
          obtain ⟨h1, h2, h3⟩ := h
          rw [← h2, ← h1]
          exact dset_lookup_self _ _ _
        | [t] =>
          obtain ⟨tens2, hreg, h⟩ := bind_ok h
          simp only [Pure.pure, Except.pure, Except.ok.injEq, Prod.mk.injEq] at h
          obtain ⟨h1, h2, h3⟩ := h
          rw [← h2, ← h1]
          exact dset_lookup_self _ _ _
        | t1 :: t2 :: rest =>
          obtain ⟨tens2, hreg, h⟩ := bind_ok h
          simp only [Pure.pure, Except.pure, Except.ok.injEq, Prod.mk.injEq] at h
          obtain ⟨h1, h2, h3⟩ := h
          rw [← h2, ← h1]
          exact dset_lookup_self _ _ _
  · intro v hl inputs' tensors'
    rw [UnitU.call, hl]

/-- A concrete unit producing a single fresh tensor. -/
def exampleUnit : UnitU :=
  ⟨1, 1, fun _ => .ok (.tensor ⟨[2], .leaf 0⟩), [], 0⟩

/-- Witness for C8: the first keyed call caches its output and bumps the
invocation count; the second keyed call (with different inputs) returns the
cached tensor and changes nothing. -/
theorem claim_C8_witness :
    exampleUnit.call [] [⟨[3], .leaf 5⟩] (some "y") =
      .ok (.single ⟨[2], .leaf 0⟩,
        ⟨1, 1, exampleUnit.fwd, [("y", .single ⟨[2], .leaf 0⟩)], 1⟩,
        [("y", ⟨[2], .leaf 0⟩)]) ∧
    (⟨1, 1, exampleUnit.fwd, [("y", .single ⟨[2], .leaf 0⟩)], 1⟩ : UnitU).call
        [("y", ⟨[2], .leaf 0⟩)] [] (some "y") =
      .ok (.single ⟨[2], .leaf 0⟩,
        ⟨1, 1, exampleUnit.fwd, [("y", .single ⟨[2], .leaf 0⟩)], 1⟩,
        [("y", ⟨[2], .leaf 0⟩)]) := by
  constructor
  · rfl
  · exact (claim_C8_keyed_call_idempotent
      ⟨1, 1, exampleUnit.fwd, [("y", .single ⟨[2], .leaf 0⟩)], 1⟩
      [] [] "y").2 (.single ⟨[2], .leaf 0⟩) rfl [] [("y", ⟨[2], .leaf 0⟩)]

/-- C1: for units with `a.num_in ≠ 0`, `a >> b` builds a `Composed` whose
`num_in` is `a.num_in` and whose `num_out` is `b.num_out`, succeeding
exactly when `a.num_out == b.num_in or b.num_in == -1` (given a current
model); when `a.num_in == 0`, `a >> b` instead immediately evaluates `a`
and applies `b` to its outputs. -/
theorem claim_C1_rshift (a b : UnitU) (cur : Option Nat)
    (tensors : List (String × Tensor)) :
    (a.num_in ≠ 0 → cur.isSome = true →
      ((a.num_out = b.num_in ∨ b.num_in = -1) →
        a.rshift b cur tensors =
          .ok (.composed ⟨a.num_in, b.num_out, a, b⟩, a, b, tensors)) ∧
      (¬ (a.num_out = b.num_in ∨ b.num_in = -1) →
        a.rshift b cur tensors = .error "AssertionError")) ∧
    (a.num_in = 0 →
      ((a.num_out = b.num_in ∨ b.num_in = -1) →
        ∀ v a' ts1, a.call tensors [] none = .ok (v, a', ts1) →
        ∀ w b' ts2, b.call ts1 (wrapInputs v) none = .ok (w, b', ts2) →
          a.rshift b cur tensors = .ok (.applied w, a', b', ts2)) ∧
      (¬ (a.num_out = b.num_in ∨ b.num_in = -1) →
        a.rshift b cur tensors = .error "AssertionError")) := by
  constructor
  · intro hne hcur
    unfold UnitU.rshift
    rw [if_neg hne]
    unfold Composed.init
    constructor
    · intro hcond
      rw [assertE_true (by simpa using hcond), assertE_true hcur]
      simp [Bind.bind, Except.bind, Pure.pure, Except.pure]
    · intro hncond
      have he : assertE (a.num_out = b.num_in ∨ b.num_in = -1) =
          .error "AssertionError" := by
        simp [assertE, hncond]
      rw [he]
      simp [Bind.bind, Except.bind]
  · intro h0
    constructor
    · intro hcond v a' ts1 hca w b' ts2 hcb
      unfold UnitU.rshift
      rw [if_pos h0, assertE_true (by simpa using hcond)]
      simp only [Bind.bind, Except.bind]
      rw [hca]
      simp only []
      rw [hcb]
      rfl
    · intro hncond
      unfold UnitU.rshift
      rw [if_pos h0]
      have he : assertE (a.num_out = b.num_in ∨ b.num_in = -1) =
          .error "AssertionError" := by
        simp [assertE, hncond]
      rw [he]
      simp [Bind.bind, Except.bind]

/-- A source unit (`num_in == 0`) and a consumer, as in `Input() >> layer`. -/
def exampleSourceUnit : UnitU :=
  ⟨0, 1, fun _ => .ok (.tensor ⟨[4], .leaf 1⟩), [], 0⟩

def exampleSinkUnit : UnitU :=
  ⟨1, 1, fun _ => .ok (.tensor ⟨[4], .leaf 2⟩), [], 0⟩

/-- Witness for C1: a 2-in unit chains into a `Composed` with the expected
arities; a 0-in unit is evaluated immediately and its output applied. -/
theorem claim_C1_witness :
    (⟨2, 1, exampleSinkUnit.fwd, [], 0⟩ : UnitU).rshift exampleSinkUnit (some 0) [] =
      .ok (.composed ⟨2, 1, ⟨2, 1, exampleSinkUnit.fwd, [], 0⟩, exampleSinkUnit⟩,
        ⟨2, 1, exampleSinkUnit.fwd, [], 0⟩, exampleSinkUnit, []) ∧
    exampleSourceUnit.rshift exampleSinkUnit (some 0) [] =
      .ok (.applied (.single ⟨[4], .leaf 2⟩),
        ⟨0, 1, exampleSourceUnit.fwd, [], 1⟩,
        ⟨1, 1, exampleSinkUnit.fwd, [], 1⟩, []) := by
  constructor
  · exact ((claim_C1_rshift ⟨2, 1, exampleSinkUnit.fwd, [], 0⟩ exampleSinkUnit
      (some 0) []).1 (by decide) rfl).1 (Or.inl rfl)
  · exact ((claim_C1_rshift exampleSourceUnit exampleSinkUnit (some 0) []).2
      rfl).1 (Or.inl rfl)
      (.single ⟨[4], .leaf 1⟩) ⟨0, 1, exampleSourceUnit.fwd, [], 1⟩ [] rfl
      (.single ⟨[4], .leaf 2⟩) ⟨1, 1, exampleSinkUnit.fwd, [], 1⟩ [] rfl

/-! ### Framework tensor operations used by `Reduction.forward`

Each smart constructor infers the static shape as the framework does
(`-1` = unknown) and raises (`Except.error`) where the framework would. -/

/-- Static broadcast of one dimension pair. -/
def bcastDim (a b : Int) : Except String Int :=
  if a = b then .ok a
  else if a = 1 then .ok b
  else if b = 1 then .ok a
  else if a = -1 then .ok b
  else if b = -1 then .ok a
  else .error "ValueError"

def bcastShape (s1 s2 : List Int) : Except String (List Int) :=
  if s1.length = s2.length then (s1.zip s2).mapM (fun p => bcastDim p.1 p.2)
  else .error "ValueError"

def tfMaximum (x y : Tensor) : Except String Tensor := do
  let s ← bcastShape (shape x) (shape y)
  return ⟨s, .maximum x.e y.e⟩

def tfAdd (x y : Tensor) : Except String Tensor := do
  let s ← bcastShape (shape x) (shape y)
  return ⟨s, .add x.e y.e⟩

def tfMinimum (x y : Tensor) : Except String Tensor := do
  let s ← bcastShape (shape x) (shape y)
  return ⟨s, .minimum x.e y.e⟩

def tfMultiply (x y : Tensor) : Except String Tensor := do
  let s ← bcastShape (shape x) (shape y)
  return ⟨s, .multiply x.e y.e⟩

/-- `y / float(len(xs))`: scalar division leaves the shape unchanged. -/
def tfDivScalar (x : Tensor) (n : Nat) : Tensor :=
  ⟨x.shape, .divScalar x.e n⟩

/-- `tf.stack(values, axis)`: equal-shaped values, the new axis inserted. -/
def tfStack (xs : List Tensor) (axis : Int) : Except String Tensor :=
  match xs with
  | [] => .error "ValueError"
  | x :: rest =>
    if rest.all (fun y => y.shape = x.shape) ∧ 0 ≤ axis ∧ axis ≤ (x.shape.length : Int) then
      .ok ⟨x.shape.take axis.toNat ++ [(xs.length : Int)] ++ x.shape.drop axis.toNat,
        .stack (xs.map Tensor.e) axis⟩
    else .error "ValueError"

/-- `tf.concat(values, axis)`: equal shapes off the axis, dims summed along
it (unknown if any part is unknown). -/
def tfConcat (xs : List Tensor) (axis : Int) : Except String Tensor :=
  match xs with
  | [] => .error "ValueError"
  | x :: rest =>
    if (rest.all (fun y => y.shape.length = x.shape.length ∧
          (y.shape.zip x.shape).enum.all
            (fun p => (p.1 : Int) = axis ∨ p.2.1 = p.2.2))) ∧
        0 ≤ axis ∧ axis < (x.shape.length : Int) then
      let dims := xs.map (fun y => y.shape.getD axis.toNat 0)
      let cdim := if dims.any (fun d => d < 0) then -1 else dims.sum
      .ok ⟨x.shape.take axis.toNat ++ [cdim] ++ x.shape.drop (axis.toNat + 1),
        .concat (xs.map Tensor.e) axis⟩
    else .error "ValueError"

/-- `tf.unstack(value, axis)`: requires a statically known extent along the
axis, yielding that many tensors with the axis removed. -/
def tfUnstack (x : Tensor) (axis : Int) : Except String (List Tensor) :=
  if 0 ≤ axis ∧ axis < (x.shape.length : Int) then
    let num := x.shape.getD axis.toNat 0
    if num < 0 then .error "ValueError"
    else .ok ((List.range num.toNat).map (fun i =>
      ⟨x.shape.take axis.toNat ++ x.shape.drop (axis.toNat + 1),
        .unstackItem x.e axis i⟩))
  else .error "ValueError"

inductive ReshapeArg where
  | flat (s : List Int)
  | triple (a : List Int) (b : Int) (c : List Int)
  deriving Repr, DecidableEq

/-- `tf.reshape`: a flat integer shape (at most one `-1`) is accepted; the
nested tuple `(s[:1], product, s[-1:])` built by the `'conv'` branch is not
convertible to a shape tensor and raises. -/
def tfReshape (x : Tensor) (s : ReshapeArg) : Except String Tensor :=
  match s with
  | .flat l =>
    if (l.filter (fun d => d = -1)).length ≤ 1 then .ok ⟨l, .reshape x.e l⟩
    else .error "ValueError"
  | .triple _ _ _ => .error "ValueError"

def tfTranspose (x : Tensor) (perm : List Nat) : Except String Tensor :=
  if perm.length = x.shape.length ∧ perm.all (fun i => i < x.shape.length) then
    .ok ⟨perm.map (fun i => x.shape.getD i 0), .transpose x.e perm⟩
  else .error "ValueError"

/-- `tf.nn.conv1d(value, filters, stride=1, padding='SAME')`. -/
def tfConv1d (v f : Tensor) : Except String Tensor :=
  match v.shape, f.shape with
  | [b, w, c], [_, c', k] =>
    if c = c' then .ok ⟨[b, w, k], .conv1d v.e f.e⟩ else .error "ValueError"
  | _, _ => .error "ValueError"

/-- `tf.nn.conv2d(input, filter, strides=(1,1,1,1), padding='VALID')`. -/
def tfConv2d (v f : Tensor) : Except String Tensor :=
  match v.shape, f.shape with
  | [b, h, w, c], [fh, fw, c', k] =>
    if c = c' ∧ 0 < fh ∧ 0 < fw then
      let oh := if h < 0 then -1 else h - fh + 1
      let ow := if w < 0 then -1 else w - fw + 1
      if (0 < oh ∨ oh = -1) ∧ (0 < ow ∨ ow = -1) then
        .ok ⟨[b, oh, ow, k], .conv2d v.e f.e⟩
      else .error "ValueError"
    else .error "ValueError"
  | _, _ => .error "ValueError"

def tfSqueeze (x : Tensor) (axis : Int) : Except String Tensor :=
  if 0 ≤ axis ∧ axis < (x.shape.length : Int) then
    if x.shape.getD axis.toNat 0 = 1 then
      .ok ⟨x.shape.take axis.toNat ++ x.shape.drop (axis.toNat + 1), .squeeze x.e axis⟩
    else .error "ValueError"
  else .error "ValueError"

/-- `x[:, ..., -1, Ellipsis]` selecting the last entry along `axis`. -/
def tfLastIndex (x : Tensor) (axis : Nat) : Except String Tensor :=
  if axis < x.shape.length then
    .ok ⟨x.shape.take axis ++ x.shape.drop (axis + 1), .lastIndex x.e axis⟩
  else .error "ValueError"

def reduceShape (s : List Int) (axes : List Int) : List Int :=
  (s.enum.filter (fun p => ¬ ((p.1 : Int) ∈ axes))).map (fun p => p.2)

def tfReduce (mk : TExpr → List Int → TExpr) (x : Tensor) (axes : List Int) :
    Except String Tensor :=
  if axes.all (fun a => 0 ≤ a ∧ a < (x.shape.length : Int)) then
    .ok ⟨reduceShape x.shape axes, mk x.e axes⟩
  else .error "ValueError"

/-! ### Python slicing and sorting helpers -/

/-- Python slice index normalization: negative indices count from the end,
then clamp into `[0, len]`. -/
def pyIdx (len : Nat) (i : Int) : Nat :=
  if i < 0 then (max 0 ((len : Int) + i)).toNat else min i.toNat len

/-- Python `l[a:b]`. -/
def pySlice (l : List Int) (a b : Int) : List Int :=
  (l.take (pyIdx l.length b)).drop (pyIdx l.length a)

/-- Python `l[a:]`. -/
def pySliceFrom (l : List Int) (a : Int) : List Int := l.drop (pyIdx l.length a)

/-- Python `l[:b]`. -/
def pySliceTo (l : List Int) (b : Int) : List Int := l.take (pyIdx l.length b)

def insertSorted (x : Int) : List Int → List Int
  | [] => [x]
  | y :: ys => if x ≤ y then x :: y :: ys else y :: insertSorted x ys

/-- Python `sorted` on a list of ints. -/
def sortInts (l : List Int) : List Int := l.foldr insertSorted []

/-- Python `range(a, b)` as a list of ints. -/
def intRange (a b : Int) : List Int :=
  (List.range (b - a).toNat).map (fun i => a + i)

/-! ### `Reduction` -/

/-- The `axis` argument of `Reduction.__init__`: an int, a list of ints, or
the three-element form `(start, Ellipsis, end)`. -/
inductive AxisArg where
  | aint (a : Int)
  | alist (l : List Int)
  | aellipsis (a b : Int)

/-- The stored `self.axis`: a tuple of ints or the `(start, Ellipsis, end)`
triple (converted to a range on the first single-input forward). -/
inductive RAxis where
  | tup (l : List Int)
  | ell (a b : Int)
  deriving Repr, DecidableEq

structure ReductionU where
  reduction : String
  axis : RAxis
  arg : Int
  multiple_inputs : Option Bool
  weights : Option VariableU
  initialized : Bool
  deriving Repr, DecidableEq

/-- `Reduction.valid(reduction)`. -/
def Reduction.valid (reduction : String) : Bool :=
  reduction ∈ ["cbp", "collapse", "concat", "conv", "conv2d", "last", "max",
    "mean", "min", "prod", "stack", "sum"]

/-- `Reduction.__init__(reduction, axis=-1, arg=-1, name=None)`
(`Unit.__init__` requires a current model; naming is abstracted away). -/
def Reduction.init (cur : Option Nat) (reduction : String)
    (axisArg : AxisArg := .aint (-1)) (arg : Int := -1) :
    Except String ReductionU := do
  assertE cur.isSome
  assertE (Reduction.valid reduction)
  let axis ← (match axisArg with
    | .aint a => pure (RAxis.tup [a])
    | .aellipsis a b => pure (RAxis.ell a b)
    | .alist l => do
      assertE (l.length > 0)
      pure (RAxis.tup (sortInts l)))
  assertE (match axis with
    | .tup l => l.Nodup
    | .ell a b => a ≠ b)
  return ⟨reduction, axis, arg, none, none, false⟩

/-- `y = xs[0]; for x in xs[1:]: y = op(y, x)`. -/
def elementwiseFold (op : Tensor → Tensor → Except String Tensor)
    (xs : List Tensor) : Except String Tensor :=
  match xs with
  | [] => .error "IndexError"
  | x0 :: rest => rest.foldlM op x0

/-- `xs = [y for x in xs for y in tf.unstack(value=x, axis=axis)]`. -/
def unstackAll (axis : Int) (xs : List Tensor) : Except String (List Tensor) := do
  let ls ← xs.mapM (fun x => tfUnstack x axis)
  return ls.flatten

/-- The `for axis in reversed(self.axis)` unstacking loop. -/
def unstackAxes (xs : List Tensor) (axes : List Int) :
    Except String (List Tensor) :=
  axes.foldlM (fun xs a => unstackAll a xs) xs

/-- Using the loop variable `x` where Python would find it unbound. The only
reduction that reaches the joint code without an `x` is 'cbp', which never
uses it. -/
def getX (xOpt : Option Tensor) : Except String Tensor :=
  match xOpt with
  | none => .error "NameError"
  | some x => .ok x

/-- The part of `Reduction.forward` after the multiple-input and
single-input branches (from the `('concat', 'stack')` membership test at
line 1053 to the end): `axisL` is the current `self.axis` tuple, `xOpt`
the loop variable `x` when defined. -/
def Reduction.forwardJoint (r : ReductionU) (axisL : List Int) (scope : String)
    (mv : VarsState) (xs : List Tensor) (xOpt : Option Tensor) :
    Except String (Option Tensor × ReductionU × VarsState) := do
  let (r, xs) ← (if r.reduction = "concat" ∨ r.reduction = "stack" then do
      let x0rank := (rank (xs.headD ⟨[], .leaf 0⟩) : Int)
      let arg := if r.arg ≥ 0 then r.arg else x0rank + r.arg
      assertE (0 ≤ arg ∧ arg < x0rank)
      let xs ← make_least_common_shape xs [arg]
      pure ({ r with arg := arg }, xs)
    else pure (r, xs))
  if r.reduction = "collapse" then do
    let x ← getX xOpt
    let start := axisL.headD 0
    let e := axisL.getLastD 0 + 1
    assertE (axisL.enum.all (fun p => p.2 = start + (p.1 : Int)))
    let rs := shape x
    let rs' := pySliceTo rs start ++ [product (pySlice rs start e)] ++ pySliceFrom rs e
    let t ← tfReshape x (.flat rs')
    return (some t, r, mv)
  else if r.reduction = "concat" then do
    let t ← tfConcat xs r.arg
    return (some t, r, mv)
  else if r.reduction = "conv" then do
    let x ← getX xOpt
    assertE (axisL = [-1] ∨ ((axisL.length : Int) = (rank x : Int) - 2 ∧
      axisL.enum.all (fun p => p.2 = 1 + (p.1 : Int))))
    let rs := shape x
    let t1 ← tfReshape x
      (.triple (pySliceTo rs 1) (product (pySlice rs 1 (-1))) (pySliceFrom rs (-1)))
    let x ← tfTranspose t1 [0, 2, 1]
    match r.weights with
    | none => .error "AttributeError"
    | some w => do
      let w ← w.specifyShape [1, (shape x).getLastD 0, 1]
      let res ← Variable.forward w scope mv
      let x ← tfConv1d x res.1
      let t ← tfSqueeze x 2
      return (some t, { r with weights := some w }, res.2.2)
  else if r.reduction = "conv2d" then do
    let x ← getX xOpt
    assertE (axisL = [-1] ∨ axisL = [1, 2])
    match r.weights with
    | none => .error "AttributeError"
    | some w => do
      let s := shape x
      let w ← w.specifyShape [s.getD 1 0, s.getD 2 0, s.getLastD 0, s.getLastD 0]
      let res ← Variable.forward w scope mv
      let x2 ← tfConv2d x res.1
      let x3 ← tfSqueeze x2 2
      let t ← tfSqueeze x3 1
      return (some t, { r with weights := some w }, res.2.2)
  else if r.reduction = "last" then do
    if r.multiple_inputs.getD false then
      return (some (xs.getLastD ⟨[], .leaf 0⟩), r, mv)
    else do
      let x ← getX xOpt
      let t ← axisL.reverse.foldlM (fun x a => do
          if a = 0 ∨ a = 1 ∨ a = 2 ∨ a = 3 ∨ a = 4 then
            tfLastIndex x a.toNat
          else .error "AssertionError") x
      return (some t, r, mv)
  else if r.reduction = "max" then do
    let x ← getX xOpt
    let t ← tfReduce TExpr.reduceMax x axisL
    return (some t, r, mv)
  else if r.reduction = "mean" then do
    let x ← getX xOpt
    let t ← tfReduce TExpr.reduceMean x axisL
    return (some t, r, mv)
  else if r.reduction = "min" then do
    let x ← getX xOpt
    let t ← tfReduce TExpr.reduceMin x axisL
    return (some t, r, mv)
  else if r.reduction = "prod" then do
    let x ← getX xOpt
    let t ← tfReduce TExpr.reduceProd x axisL
    return (some t, r, mv)
  else if r.reduction = "stack" then do
    let t ← tfStack xs r.arg
    return (some t, r, mv)
  else if r.reduction = "sum" then do
    let x ← getX xOpt
    let t ← tfReduce TExpr.reduceSum x axisL
    return (some t, r, mv)
  else
    return (none, r, mv)

/-- `Reduction.forward(*xs)` (with `initialize` run on the first call, as
`Unit.forward` does; the arity check is vacuous since `num_in == -1`). -/
def Reduction.forward (r : ReductionU) (scope : String) (mv : VarsState)
    (xs : List Tensor) :
    Except String (Option Tensor × ReductionU × VarsState) := do
  let r ← (if r.initialized then pure r
    else do
      let w ← (if r.reduction = "conv" ∨ r.reduction = "conv2d" then do
          let v ← Variable.create "weights" none "float" "in-out" none
          pure (some v)
        else pure (none : Option VariableU))
      pure { r with weights := w, initialized := true })
  assertE (xs.length > 0)
  let r := (match r.multiple_inputs with
    | none => { r with multiple_inputs := some (decide (xs.length > 1)) }
    | some _ => r)
  if r.multiple_inputs.getD false then do
    assertE (r.axis = RAxis.tup [-1])
    let x0 := xs.headD ⟨[], .leaf 0⟩
    assertE (xs.all (fun x => rank x = rank x0))
    let axis : Int := if (-1 : Int) ≥ 0 then -1 else (rank x0 : Int) + (-1) + 1
    if r.reduction = "max" then do
      let t ← elementwiseFold tfMaximum xs
      return (some t, r, mv)
    else if r.reduction = "mean" then do
      let t ← elementwiseFold tfAdd xs
      return (some (tfDivScalar t xs.length), r, mv)
    else if r.reduction = "min" then do
      let t ← elementwiseFold tfMinimum xs
      return (some t, r, mv)
    else if r.reduction = "prod" then do
      let t ← elementwiseFold tfMultiply xs
      return (some t, r, mv)
    else if r.reduction = "sum" then do
      let t ← elementwiseFold tfAdd xs
      return (some t, r, mv)
    else if r.reduction = "collapse" ∨ r.reduction = "conv" ∨
        r.reduction = "conv2d" then do
      let xs' ← make_least_common_shape xs
      let x ← tfStack xs' axis
      Reduction.forwardJoint r [-1] scope mv xs' (some x)
    else
      Reduction.forwardJoint r [-1] scope mv xs none
  else do
    let x := xs.headD ⟨[], .leaf 0⟩
    let axisL ← (match r.axis with
      | .ell a b => do
        let start := if a ≥ 0 then a else (rank x : Int) + a
        let e := if b ≥ 0 then b else (rank x : Int) + b
        pure (intRange start (e + 1))
      | .tup l =>
        if l.any (fun a => a < 0) then do
          let l' := sortInts (l.map (fun a => if a ≥ 0 then a else (rank x : Int) + a))
          assertE l'.Nodup
          pure l'
        else pure l)
    match axisL with
    | [] => .error "IndexError"
    | a0 :: _ => do
      assertE (a0 ≥ 0 ∧ axisL.getLastD 0 < (rank x : Int))
      let r := { r with axis := RAxis.tup axisL }
      if r.reduction = "concat" ∨ r.reduction = "stack" then do
        let xs' ← unstackAxes xs axisL.reverse
        Reduction.forwardJoint r axisL scope mv xs' (some x)
      else
        Reduction.forwardJoint r axisL scope mv xs (some x)

/-- The root framework op of a tensor expression, for stating which
computation a reduction dispatched to. -/
def rootOp (e : TExpr) : String :=
  match e with
  | .leaf _ => "leaf"
  | .variable_ _ => "variable"
  | .identity_ _ => "identity"
  | .tile _ _ => "tile"
  | .maximum _ _ => "maximum"
  | .add _ _ => "add"
  | .minimum _ _ => "minimum"
  | .multiply _ _ => "multiply"
  | .divScalar _ _ => "truediv"
  | .stack _ _ => "stack"
  | .concat _ _ => "concat"
  | .unstackItem _ _ _ => "unstack"
  | .reshape _ _ => "reshape"
  | .transpose _ _ => "transpose"
  | .conv1d _ _ => "conv1d"
  | .conv2d _ _ => "conv2d"
  | .squeeze _ _ => "squeeze"
  | .lastIndex _ _ => "strided_slice"
  | .reduceMax _ _ => "reduce_max"
  | .reduceMean _ _ => "reduce_mean"
  | .reduceMin _ _ => "reduce_min"
  | .reduceProd _ _ => "reduce_prod"
  | .reduceSum _ _ => "reduce_sum"
  | .totalLoss => "total_loss"

/-- Construct a `Reduction` (under a current model) and run its first
forward, reporting the result tensor's shape and root op (`none` when the
Python function returns `None`). -/
def runReduction (name : String) (axisArg : AxisArg) (arg : Int)
    (xs : List Tensor) : Except String (Option (List Int × String)) :=
  match Reduction.init (some 0) name axisArg arg with
  | .error e => .error e
  | .ok r =>
    match Reduction.forward r "scope" VarsState.empty xs with
    | .error e => .error e
    | .ok (t, _, _) => .ok (t.map (fun t => (t.shape, rootOp t.e)))

/-- C2 (amended): the `Reduction` constructor accepts exactly the names
cbp, collapse, concat, conv, conv2d, last, max, mean, min, prod, stack and
sum, rejecting every other name at construction; `forward` dispatches to a
corresponding reduction computation returning a result tensor for
collapse, concat, conv2d, last, max, mean, min, prod, stack and sum (shown
on concrete inputs), but for 'cbp' no `forward` branch exists and the
function returns `None`, and the 'conv' branch hands `tf.reshape` the
malformed nested shape tuple built at line 1072, so the framework raises. -/
theorem claim_C2_reduction_dispatch :
    (∀ s, Reduction.valid s = true ↔
      s ∈ ["cbp", "collapse", "concat", "conv", "conv2d", "last", "max",
        "mean", "min", "prod", "stack", "sum"]) ∧
    (∀ (s : String) (axisArg : AxisArg) (arg : Int) (cur : Option Nat),
      Reduction.valid s = false →
      Reduction.init cur s axisArg arg = .error "AssertionError") ∧
    runReduction "max" (.aint (-1)) (-1) [⟨[2, 3], .leaf 0⟩] =
      .ok (some ([2], "reduce_max")) ∧
    runReduction "mean" (.aint (-1)) (-1) [⟨[2, 3], .leaf 0⟩] =
      .ok (some ([2], "reduce_mean")) ∧
    runReduction "mean" (.aint (-1)) (-1) [⟨[2, 3], .leaf 0⟩, ⟨[2, 3], .leaf 1⟩] =
      .ok (some ([2, 3], "truediv")) ∧
    runReduction "min" (.aint (-1)) (-1) [⟨[2, 3], .leaf 0⟩] =
      .ok (some ([2], "reduce_min")) ∧
    runReduction "prod" (.aint (-1)) (-1) [⟨[2, 3], .leaf 0⟩] =
      .ok (some ([2], "reduce_prod")) ∧
    runReduction "sum" (.aint (-1)) (-1) [⟨[2, 3], .leaf 0⟩] =
      .ok (some ([2], "reduce_sum")) ∧
    runReduction "last" (.aint (-1)) (-1) [⟨[2, 3], .leaf 0⟩] =
      .ok (some ([2], "strided_slice")) ∧
    runReduction "collapse" (.alist [1, 2]) (-1) [⟨[2, 3, 4], .leaf 0⟩] =
      .ok (some ([2, 12], "reshape")) ∧
    runReduction "concat" (.aint (-1)) (-1) [⟨[2, 3], .leaf 0⟩, ⟨[2, 3], .leaf 1⟩] =
      .ok (some ([2, 6], "concat")) ∧
    runReduction "stack" (.aint (-1)) (-1) [⟨[2, 3], .leaf 0⟩, ⟨[2, 3], .leaf 1⟩] =
      .ok (some ([2, 2, 3], "stack")) ∧
    runReduction "conv2d" (.alist [1, 2]) (-1) [⟨[2, 5, 5, 3], .leaf 0⟩] =
      .ok (some ([2, 3], "squeeze")) ∧
    runReduction "cbp" (.aint (-1)) (-1) [⟨[2, 3], .leaf 0⟩] = .ok none ∧
    runReduction "conv" (.alist [1]) (-1) [⟨[2, 5, 3], .leaf 0⟩] =
      .error "ValueError" := by
  refine ⟨?_, ?_, rfl, rfl, rfl, rfl, rfl, rfl, rfl, rfl, rfl, rfl, rfl, rfl, rfl⟩
  · intro s
    simp [Reduction.valid]
  · intro s axisArg arg cur hval
    unfold Reduction.init
    cases cur with
    | none => simp [assertE, Bind.bind, Except.bind]
    | some c =>
      simp [assertE, hval, Bind.bind, Except.bind]

/-- Counterexample to C2 as stated: 'cbp' is accepted by the constructor,
yet `Reduction.forward` has no branch for it and returns `None` rather
than a result tensor. -/
theorem claim_C2_counterexample :
    Reduction.valid "cbp" = true ∧
    runReduction "cbp" (.aint (-1)) (-1) [⟨[2, 3], .leaf 0⟩] = .ok none := by
  exact ⟨rfl, rfl⟩

/-- Witness for C2: an unaccepted name is rejected at construction, and a
valid characterization instance. -/
theorem claim_C2_witness :
    Reduction.init (some 0) "average" (.aint (-1)) (-1) =
      .error "AssertionError" ∧
    (Reduction.valid "sum" = true ↔
      ("sum" : String) ∈ ["cbp", "collapse", "concat", "conv", "conv2d",
        "last", "max", "mean", "min", "prod", "stack", "sum"]) := by
  exact ⟨claim_C2_reduction_dispatch.2.1 "average" (.aint (-1)) (-1) (some 0)
    (by rfl), claim_C2_reduction_dispatch.1 "sum"⟩

end TFMacros
